/-
Verification of the task scheduler / execution orchestrator
(`AgentOrchestrator` in `extension/src/index.ts`).

The orchestrator is shallowly embedded as a pure state machine:
its instance fields become the fields of `Orch.OState`, its methods
become pure state-transition functions, and the asynchronous settling
of an execution promise (the RARV phase cycle racing its timeout)
becomes an environment-chosen `Orch.AttemptOutcome` delivered by an
explicit `settle` command.  Machine timestamps (`Date.now()`) are
threaded through the commands as natural numbers (milliseconds).
JavaScript `Array.prototype.sort` is required stable by ECMAScript
2019, so it is modelled by `List.mergeSort`.
-/
import Mathlib

namespace Orch

/-- The four RARV lifecycle phases plus the resting state, from `RARVPhase`. -/
inductive RARVPhase where
  | idle
  | reason
  | act
  | reflect
  | verify
deriving DecidableEq, Repr, Inhabited

/-- The fifteen concrete agent kinds, from the `AgentType` union. -/
inductive AgentType where
  | frontend
  | backend
  | database
  | api
  | devops
  | qa
  | codeReview
  | securityReview
  | perf
  | testGen
  | docs
  | refactor
  | migration
  | architect
  | decomposition
deriving DecidableEq, Repr, Inhabited

/-- A task's declared type: either the generic marker or a concrete agent kind
(the source compares `task.type !== 'general'`). -/
inductive TaskType where
  | general
  | kind (a : AgentType)
deriving DecidableEq, Repr, Inhabited

/-- The four declared priority tiers of a task. -/
inductive PriorityTier where
  | critical
  | high
  | medium
  | low
deriving DecidableEq, Repr, Inhabited

/-- The file-context bundle carried by a task (`task.context`); only the
file list is consulted by the orchestrator. -/
structure TaskContext where
  files : List String
deriving DecidableEq, Repr, Inhabited

/-- A unit of work, from the `Task` interface; confidence is a rational
in place of the JavaScript float. -/
structure Task where
  id : String
  description : String
  type : TaskType
  priority : PriorityTier
  confidence : ℚ
  context : TaskContext
deriving DecidableEq, Repr, Inhabited

/-- Orchestrator configuration, from `OrchestratorConfig`. -/
structure OrchestratorConfig where
  maxConcurrent : Nat
  queueSize : Nat
  taskTimeout : Nat
  retryFailedTasks : Bool
  maxRetries : Nat
  priorityBoostOnAge : Bool
  priorityBoostThreshold : Nat
deriving DecidableEq, Repr, Inhabited

/-- `DEFAULT_CONFIG` from the source. -/
def DEFAULT_CONFIG : OrchestratorConfig where
  maxConcurrent := 4
  queueSize := 100
  taskTimeout := 300000
  retryFailedTasks := true
  maxRetries := 3
  priorityBoostOnAge := true
  priorityBoostThreshold := 60000

/-- `AgentOrchestrator.calculatePriority`: tier base via the `priorityMap`
record (with the source's `|| 50` fallback on a missed lookup, which the
four-tier type makes unreachable), plus the confidence bonus, minus the
complexity penalty for more than five context files. -/
def calculatePriority (task : Task) : Int :=
  let priorityMap : PriorityTier → Option Int := fun p =>
    match p with
    | .critical => some 100
    | .high => some 75
    | .medium => some 50
    | .low => some 25
  let priority : Int := 0 + ((priorityMap task.priority).getD 50)
  let priority :=
    if task.confidence ≥ mkRat 9 10 then priority + 20
    else if task.confidence ≥ mkRat 6 10 then priority + 10
    else priority
  let priority :=
    if task.context.files.length > 5 then priority - 10
    else priority
  priority

/-- Spec-side tier base: critical=100, high=75, medium=50, low=25. -/
def tierBase : PriorityTier → Int
  | .critical => 100
  | .high => 75
  | .medium => 50
  | .low => 25

/-- Spec-side confidence bonus: +20 if confidence ≥ 0.9, +10 if ≥ 0.6, else 0. -/
def confidenceBonus (c : ℚ) : Int :=
  if c ≥ mkRat 9 10 then 20 else if c ≥ mkRat 6 10 then 10 else 0

/-- Spec-side complexity penalty: 10 if the file-context list has more
than 5 entries, else 0. -/
def complexityPenalty (task : Task) : Int :=
  if task.context.files.length > 5 then 10 else 0

/-- Whether the character list `pat` starts the character list `s`. -/
def charsStart : List Char → List Char → Bool
  | [], _ => true
  | _ :: _, [] => false
  | a :: p, b :: s => a = b && charsStart p s

/-- Whether the character list `pat` occurs contiguously inside `s`. -/
def charsContain (pat : List Char) : List Char → Bool
  | [] => charsStart pat []
  | b :: rest => charsStart pat (b :: rest) || charsContain pat rest

/-- Substring test for the regex alternations in `inferAgentType`; each
regex there is an alternation of literal strings, so `lower.match(re)` is
truthy exactly when one alternative occurs as a substring. -/
def strContains (s pat : String) : Bool :=
  charsContain pat.toList s.toList

/-- Whether any of the literal alternatives of one regex occurs in `s`. -/
def matchesAny (s : String) (pats : List String) : Bool :=
  pats.any (fun p => strContains s p)

/-- `AgentOrchestrator.inferAgentType`: lowercase the description and test
the fixed regex chain top to bottom (engineering, quality, support,
planning), defaulting to backend. -/
def inferAgentType (description : String) : AgentType :=
  let lower := description.toLower
  if matchesAny lower ["react", "vue", "angular", "css", "html", "component", "ui", "frontend", "style"] then .frontend
  else if matchesAny lower ["api", "rest", "graphql", "endpoint", "route", "controller"] then .api
  else if matchesAny lower ["database", "sql", "schema", "migration", "query", "table"] then .database
  else if matchesAny lower ["docker", "kubernetes", "k8s", "ci", "cd", "deploy", "pipeline", "infra"] then .devops
  else if matchesAny lower ["test", "spec", "e2e", "integration"] then .qa
  else if matchesAny lower ["node", "python", "go", "java", "server", "backend", "service"] then .backend
  else if matchesAny lower ["review", "code quality", "lint"] then .codeReview
  else if matchesAny lower ["security", "vulnerability", "owasp", "secret"] then .securityReview
  else if matchesAny lower ["performance", "optimize", "latency"] then .perf
  else if matchesAny lower ["generate test", "unit test", "test coverage"] then .testGen
  else if matchesAny lower ["document", "readme", "api doc"] then .docs
  else if matchesAny lower ["refactor", "clean", "modernize"] then .refactor
  else if matchesAny lower ["migrate", "upgrade", "version"] then .migration
  else if matchesAny lower ["architect", "design", "system"] then .architect
  else if matchesAny lower ["break down", "decompose", "split"] then .decomposition
  else .backend

/-- `AgentOrchestrator.selectAgent`: explicit non-generic kinds pass
through unchanged, otherwise the kind is inferred from the description. -/
def selectAgent (task : Task) : AgentType :=
  match task.type with
  | .kind a => a
  | .general => inferAgentType task.description

/-- Spec-side rule list: the ordered keyword-pattern to kind rules,
grouped engineering, quality, support, planning, evaluated top to bottom. -/
def agentRules : List (List String × AgentType) :=
  [ (["react", "vue", "angular", "css", "html", "component", "ui", "frontend", "style"], .frontend),
    (["api", "rest", "graphql", "endpoint", "route", "controller"], .api),
    (["database", "sql", "schema", "migration", "query", "table"], .database),
    (["docker", "kubernetes", "k8s", "ci", "cd", "deploy", "pipeline", "infra"], .devops),
    (["test", "spec", "e2e", "integration"], .qa),
    (["node", "python", "go", "java", "server", "backend", "service"], .backend),
    (["review", "code quality", "lint"], .codeReview),
    (["security", "vulnerability", "owasp", "secret"], .securityReview),
    (["performance", "optimize", "latency"], .perf),
    (["generate test", "unit test", "test coverage"], .testGen),
    (["document", "readme", "api doc"], .docs),
    (["refactor", "clean", "modernize"], .refactor),
    (["migrate", "upgrade", "version"], .migration),
    (["architect", "design", "system"], .architect),
    (["break down", "decompose", "split"], .decomposition) ]

/-- Spec-side selection: first matching rule of `agentRules` against the
lowercased description wins, defaulting to the backend kind. -/
def specSelectAgent (task : Task) : AgentType :=
  match task.type with
  | .kind a => a
  | .general =>
      match agentRules.find? (fun r => matchesAny task.description.toLower r.1) with
      | some r => r.2
      | none => .backend

/-- A queued task, from the `TaskQueueItem` interface: the wrapped task,
its derived priority score, the enqueue timestamp, the attempt counter and
the latest attempt timestamp / error message. -/
structure QueueItem where
  task : Task
  priority : Int
  addedAt : Nat
  attempts : Nat
  lastAttemptAt : Option Nat := none
  error : Option String := none
deriving DecidableEq, Repr, Inhabited

/-- One in-flight execution slot, from `ActiveAgentInfo`; the execution id
is modelled as a counter (the source builds a string from the task id and
`Date.now()`), and the slot keeps the `QueueItem` the source captures in
the `executeTask` closure. -/
structure ActiveAgentInfo where
  executionId : Nat
  agentType : AgentType
  item : QueueItem
  startedAt : Nat
  phase : RARVPhase
deriving DecidableEq, Repr, Inhabited

/-- Per-phase millisecond timings inside a result's metrics. -/
structure PhaseTimings where
  idle : Nat
  reason : Nat
  act : Nat
  reflect : Nat
  verify : Nat
deriving DecidableEq, Repr, Inhabited

/-- Token / cost / duration metrics of a result. -/
structure TaskMetrics where
  totalTokens : Nat
  inputTokens : Nat
  outputTokens : Nat
  cost : Nat
  duration : Int
  phaseTimings : PhaseTimings
deriving DecidableEq, Repr, Inhabited

/-- One entry of a result's error list. -/
structure TaskError where
  code : String
  message : String
  phase : RARVPhase
  recoverable : Bool
deriving DecidableEq, Repr, Inhabited

/-- Terminal record of one task, from the `TaskResult` interface. -/
structure TaskResult where
  taskId : String
  success : Bool
  output : String
  artifacts : List String
  learnings : List String
  metrics : TaskMetrics
  errors : List TaskError
  retryCount : Nat
deriving DecidableEq, Repr, Inhabited

/-- An emitted event, reduced to the fields the claims consult: the event
type string, the associated task id, and the attempt counter carried by
retry / terminal-failure payloads (zero elsewhere). -/
structure Ev where
  type : String
  taskId : String
  attempt : Nat
deriving DecidableEq, Repr, Inhabited

/-- The orchestrator's mutable instance fields. -/
structure OState where
  taskQueue : List QueueItem
  active : List ActiveAgentInfo
  completedTasks : List TaskResult
  failedTasks : List TaskResult
  isRunning : Bool
  isPaused : Bool
  startTime : Nat
  totalCost : Nat
  nextExecId : Nat
  events : List Ev
deriving DecidableEq, Repr, Inhabited

/-- The freshly constructed orchestrator: empty queue, no slots, stopped. -/
def initState : OState where
  taskQueue := []
  active := []
  completedTasks := []
  failedTasks := []
  isRunning := false
  isPaused := false
  startTime := 0
  totalCost := 0
  nextExecId := 0
  events := []

/-- Stable insertion step: `x` is placed before the first element whose
key is not larger, so earlier input stays before equal-key later input. -/
def insertD (key : α → Int) (x : α) : List α → List α
  | [] => [x]
  | y :: ys => if key x < key y then y :: insertD key x ys else x :: y :: ys

/-- Stable sort, descending by `key`.  ECMAScript 2019 requires
`Array.prototype.sort` to be stable, and for a consistent comparator the
stable sorted permutation is unique, so insertion sort is extensionally
the source's `sort((a, b) => b.priority - a.priority)`. -/
def stableSortD (key : α → Int) : List α → List α
  | [] => []
  | a :: l => insertD key a (stableSortD key l)

/-- `AgentOrchestrator.sortQueue`: descending stable sort by priority score. -/
def sortQueue (q : List QueueItem) : List QueueItem :=
  stableSortD (fun item => item.priority) q

/-- Age boost of one queued item: 5 points per full threshold interval of
age, applied only when the age strictly exceeds the threshold. -/
def boostItem (cfg : OrchestratorConfig) (now : Nat) (item : QueueItem) : QueueItem :=
  let age := now - item.addedAt
  if age > cfg.priorityBoostThreshold then
    { item with priority := item.priority + (age / cfg.priorityBoostThreshold) * 5 }
  else item

/-- `AgentOrchestrator.boostAgedTasks`: boost every queued item, then re-sort. -/
def boostAgedTasks (cfg : OrchestratorConfig) (now : Nat) (s : OState) : OState :=
  { s with taskQueue := sortQueue (s.taskQueue.map (boostItem cfg now)) }

/-- The execution slot created by `AgentOrchestrator.executeTask`. -/
def mkSlot (now execId : Nat) (item : QueueItem) : ActiveAgentInfo where
  executionId := execId
  agentType := selectAgent item.task
  item := item
  startedAt := now
  phase := .reason

/-- The synchronous portion of `AgentOrchestrator.executeTask`: register
the slot in the active map and emit `agent-started` (the promise's
settlement arrives later as a `Cmd.settle`). -/
def executeTask (now : Nat) (item : QueueItem) (s : OState) : OState :=
  { s with
    active := s.active ++ [mkSlot now s.nextExecId item],
    nextExecId := s.nextExecId + 1,
    events := s.events ++ [⟨"agent-started", item.task.id, 0⟩] }

/-- Structural worker for the admission while-loop: the list argument is
the current task queue (kept equal to `s.taskQueue`); while the in-flight
count is strictly below `maxConcurrent` and items remain, shift the front
item and execute it. -/
def admitGo (cfg : OrchestratorConfig) (now : Nat) : List QueueItem → OState → OState
  | [], s => s
  | item :: rest, s =>
      if s.active.length < cfg.maxConcurrent then
        admitGo cfg now rest (executeTask now item { s with taskQueue := rest })
      else s

/-- The admission while-loop of `AgentOrchestrator.processQueue`: while
the in-flight count is strictly below `maxConcurrent` and the queue is
non-empty, shift the front item and execute it. -/
def admitLoop (cfg : OrchestratorConfig) (now : Nat) (s : OState) : OState :=
  admitGo cfg now s.taskQueue s

/-- `AgentOrchestrator.processQueue`: bail out unless running and not
paused, apply age boosting when configured, then run the admission loop. -/
def processQueue (cfg : OrchestratorConfig) (now : Nat) (s : OState) : OState :=
  if s.isRunning = false ∨ s.isPaused = true then s
  else admitLoop cfg now (if cfg.priorityBoostOnAge then boostAgedTasks cfg now s else s)

/-- `AgentOrchestrator.handleTaskCompletion`: a resolved result goes to the
completed list (accumulating cost) when successful, else straight to the
failed list. -/
def handleTaskCompletion (result : TaskResult) (s : OState) : OState :=
  if result.success then
    { s with
      completedTasks := s.completedTasks ++ [result],
      totalCost := s.totalCost + result.metrics.cost,
      events := s.events ++ [⟨"task-completed", result.taskId, 0⟩] }
  else
    { s with
      failedTasks := s.failedTasks ++ [result],
      events := s.events ++ [⟨"task-failed", result.taskId, 0⟩] }

/-- The terminal failure `TaskResult` synthesized by
`AgentOrchestrator.handleTaskError`: zeroed metrics except the wall time
since the original enqueue, a single non-recoverable `EXECUTION_ERROR`
attributed to the act phase, and the accumulated attempt count. -/
def failureResult (now : Nat) (item : QueueItem) (msg : String) : TaskResult where
  taskId := item.task.id
  success := false
  output := ""
  artifacts := []
  learnings := []
  metrics :=
    { totalTokens := 0
      inputTokens := 0
      outputTokens := 0
      cost := 0
      duration := (now : Int) - (item.addedAt : Int)
      phaseTimings := ⟨0, 0, 0, 0, 0⟩ }
  errors := [⟨"EXECUTION_ERROR", msg, .act, false⟩]
  retryCount := item.attempts

/-- `AgentOrchestrator.handleTaskError`: bump the attempt counter and
record the error; re-enqueue and emit `task-retry` while retrying is
enabled and the bumped count is below `maxRetries`, otherwise append the
terminal failure result and emit `task-failed`. -/
def handleTaskError (cfg : OrchestratorConfig) (now : Nat) (item : QueueItem)
    (msg : String) (s : OState) : OState :=
  let item := { item with attempts := item.attempts + 1, lastAttemptAt := some now, error := some msg }
  if cfg.retryFailedTasks ∧ item.attempts < cfg.maxRetries then
    { s with
      taskQueue := sortQueue (s.taskQueue ++ [item]),
      events := s.events ++ [⟨"task-retry", item.task.id, item.attempts⟩] }
  else
    { s with
      failedTasks := s.failedTasks ++ [failureResult now item msg],
      events := s.events ++ [⟨"task-failed", item.task.id, item.attempts⟩] }

/-- The rejection message of the timeout branch of
`AgentOrchestrator.runExecution`. -/
def timeoutMessage (cfg : OrchestratorConfig) : String :=
  "Task timeout after " ++ toString cfg.taskTimeout ++ "ms"

/-- Environment-chosen payload of a resolved phase-cycle run: every
`TaskResult` field except the task id. -/
structure CycleData where
  success : Bool
  output : String
  artifacts : List String
  learnings : List String
  metrics : TaskMetrics
  errors : List TaskError
  retryCount : Nat
deriving DecidableEq, Repr, Inhabited

/-- Modelled from the spec: `RARVCycle.execute` (the `rarv-cycle` module is
not among the sources) returns the terminal Result of one attempt for the
given task — "every Result is attributable to exactly one task id" — with
environment-chosen payload. -/
def mkCycleResult (task : Task) (d : CycleData) : TaskResult where
  taskId := task.id
  success := d.success
  output := d.output
  artifacts := d.artifacts
  learnings := d.learnings
  metrics := d.metrics
  errors := d.errors
  retryCount := d.retryCount

/-- How one attempt's promise race settles, chosen by the environment:
the phase cycle resolves (successfully or not), the phase cycle rejects,
or the timeout fires first. -/
inductive AttemptOutcome where
  | resolved (d : CycleData)
  | rejected (msg : String)
  | timedOut

/-- Settlement of the execution promise of slot `execId`: the
then/catch handlers run first (`handleTaskCompletion` on a resolved cycle,
`handleTaskError` on a rejection or on the timeout winning the race), the
finally handler then removes the slot and re-runs `processQueue`. -/
def settle (cfg : OrchestratorConfig) (now : Nat) (execId : Nat)
    (out : AttemptOutcome) (s : OState) : OState :=
  match s.active.find? (fun i => i.executionId == execId) with
  | none => s
  | some info =>
      let s1 :=
        match out with
        | .resolved d => handleTaskCompletion (mkCycleResult info.item.task d) s
        | .rejected msg => handleTaskError cfg now info.item msg s
        | .timedOut => handleTaskError cfg now info.item (timeoutMessage cfg) s
      let s2 := { s1 with active := s1.active.eraseP (fun i => i.executionId == execId) }
      processQueue cfg now s2

/-- The error surfaced by `dispatch` on a full queue. -/
inductive DispatchError where
  | queueFull
deriving DecidableEq, Repr

/-- `AgentOrchestrator.dispatch`: reject when the queue is at capacity;
otherwise wrap the task with its computed priority, enqueue, sort, emit
`task-queued`, and trigger the admission loop when running and not
paused.  Returns the task id. -/
def dispatch (cfg : OrchestratorConfig) (now : Nat) (task : Task) (s : OState) :
    Except DispatchError (String × OState) :=
  if s.taskQueue.length ≥ cfg.queueSize then .error .queueFull
  else
    let item : QueueItem := { task := task, priority := calculatePriority task, addedAt := now, attempts := 0 }
    let s := { s with
      taskQueue := sortQueue (s.taskQueue ++ [item]),
      events := s.events ++ [⟨"task-queued", task.id, 0⟩] }
    let s := if s.isRunning = true ∧ s.isPaused = false then processQueue cfg now s else s
    .ok (task.id, s)

/-- Removal of the first queued item carrying the given task id
(`findIndex` plus `splice(index, 1)` in the source). -/
def removeFirstTask (tid : String) : List QueueItem → Option (List QueueItem)
  | [] => none
  | item :: rest =>
      if item.task.id = tid then some rest
      else (removeFirstTask tid rest).map (item :: ·)

/-- `AgentOrchestrator.cancelTask`: remove the task from the queue if still
queued, emitting `task-cancelled`; report whether a removal occurred. -/
def cancelTask (tid : String) (s : OState) : Bool × OState :=
  match removeFirstTask tid s.taskQueue with
  | some q => (true, { s with taskQueue := q, events := s.events ++ [⟨"task-cancelled", tid, 0⟩] })
  | none => (false, s)

/-- `AgentOrchestrator.start`: idempotent; flip to running, stamp the start
time, emit, and kick the admission loop. -/
def start (cfg : OrchestratorConfig) (now : Nat) (s : OState) : OState :=
  if s.isRunning then s
  else
    processQueue cfg now
      { s with
        isRunning := true,
        isPaused := false,
        startTime := now,
        events := s.events ++ [⟨"orchestrator-started", "orchestrator", 0⟩] }

/-- `AgentOrchestrator.pause`: stop admissions, let in-flight work finish. -/
def pause (s : OState) : OState :=
  { s with isPaused := true, events := s.events ++ [⟨"orchestrator-paused", "orchestrator", 0⟩] }

/-- `AgentOrchestrator.resume`: clear the pause flag and re-trigger the
admission loop (which itself re-checks the running flag). -/
def resume (cfg : OrchestratorConfig) (now : Nat) (s : OState) : OState :=
  processQueue cfg now
    { s with isPaused := false, events := s.events ++ [⟨"orchestrator-resumed", "orchestrator", 0⟩] }

/-- `AgentOrchestrator.handleRARVEvent` for a phase-started event: update
the slot's current phase and forward the event. -/
def setPhase (execId : Nat) (p : RARVPhase) (s : OState) : OState :=
  { s with
    active := s.active.map (fun i => if i.executionId == execId then { i with phase := p } else i),
    events := s.events ++ [⟨"phase-started", "", 0⟩] }

/-- One step of the phase-count accumulator of
`AgentOrchestrator.getCurrentPhase` (`acc[phase] = (acc[phase] || 0) + 1`):
a JavaScript object keeps string keys in insertion order, so the counts
form an association list ordered by first occurrence. -/
def bumpCount : List (RARVPhase × Nat) → RARVPhase → List (RARVPhase × Nat)
  | [], p => [(p, 1)]
  | (q, n) :: rest, p => if q = p then (q, n + 1) :: rest else (q, n) :: bumpCount rest p

/-- The phase-count association list over the in-flight phases. -/
def phaseCounts (phs : List RARVPhase) : List (RARVPhase × Nat) :=
  phs.foldl bumpCount []

/-- `AgentOrchestrator.getCurrentPhase`: idle when nothing is in flight,
otherwise the first key of the counts object stably sorted descending by
count (`Object.entries(...).sort((a, b) => b[1] - a[1])[0][0]`). -/
def getCurrentPhase (active : List ActiveAgentInfo) : RARVPhase :=
  if active.length = 0 then .idle
  else
    match stableSortD (fun e => (e.2 : Int)) (phaseCounts (active.map (fun i => i.phase))) with
    | [] => .idle
    | e :: _ => e.1

/-- The externally observable commands driving the orchestrator: public
API calls plus the environment-delivered settlements and phase events. -/
inductive Cmd where
  | start (now : Nat)
  | pause
  | resume (now : Nat)
  | dispatch (now : Nat) (task : Task)
  | cancel (tid : String)
  | settle (now : Nat) (execId : Nat) (out : AttemptOutcome)
  | rarvPhase (execId : Nat) (p : RARVPhase)

/-- The orchestrator state paired with ghost accounting for the spec-level
counts: ids of successfully dispatched tasks and of successful cancels. -/
structure GState where
  st : OState
  dispatched : List String
  cancelled : List String

/-- Ghost-instrumented step: runs the source transition on `st` and
records dispatch / cancel outcomes. -/
def gstep (cfg : OrchestratorConfig) (g : GState) : Cmd → GState
  | .start now => { g with st := start cfg now g.st }
  | .pause => { g with st := pause g.st }
  | .resume now => { g with st := resume cfg now g.st }
  | .dispatch now task =>
      match dispatch cfg now task g.st with
      | .ok (tid, s) => { g with st := s, dispatched := g.dispatched ++ [tid] }
      | .error _ => g
  | .cancel tid =>
      match cancelTask tid g.st with
      | (true, s) => { g with st := s, cancelled := g.cancelled ++ [tid] }
      | (false, s) => { g with st := s }
  | .settle now execId out => { g with st := settle cfg now execId out g.st }
  | .rarvPhase execId p => { g with st := setPhase execId p g.st }

/-- The initial ghost state. -/
def initG : GState where
  st := initState
  dispatched := []
  cancelled := []

/-- Run a command trace from the freshly constructed orchestrator. -/
def runG (cfg : OrchestratorConfig) (trace : List Cmd) : GState :=
  trace.foldl (gstep cfg) initG

/-- A minimal concrete task used by the closed witness statements. -/
def sampleTask : Task where
  id := "t1"
  description := ""
  type := .kind .backend
  priority := .medium
  confidence := 0
  context := ⟨[]⟩

/-- A second concrete task with a distinct id. -/
def sampleTask2 : Task where
  id := "t2"
  description := ""
  type := .kind .frontend
  priority := .low
  confidence := 0
  context := ⟨[]⟩

/-- C5: the priority score computed at dispatch is the tier base plus the
confidence bonus minus the complexity penalty. -/
theorem calculatePriority_eq_spec (task : Task) :
    calculatePriority task =
      tierBase task.priority + confidenceBonus task.confidence - complexityPenalty task := by
  unfold calculatePriority tierBase confidenceBonus complexityPenalty
  cases task.priority <;> simp only [Option.getD_some] <;> split_ifs <;> ring

/-- The first-match scan over an arbitrary rule list, written as the same
if-chain shape as `inferAgentType`. -/
def chainOf (lower : String) : List (List String × AgentType) → AgentType
  | [] => .backend
  | r :: rest => if matchesAny lower r.1 then r.2 else chainOf lower rest

theorem chainOf_eq_find (lower : String) :
    ∀ rules : List (List String × AgentType),
      chainOf lower rules =
        match rules.find? (fun r => matchesAny lower r.1) with
        | some r => r.2
        | none => AgentType.backend := by
  intro rules
  induction rules with
  | nil => rfl
  | cons r rest ih =>
      simp only [chainOf, List.find?_cons]
      cases h : matchesAny lower r.1 <;> simp [h, ih]

theorem inferAgentType_eq_chain (d : String) :
    inferAgentType d = chainOf d.toLower agentRules := rfl

/-- C10: agent selection is the deterministic pure function that returns an
explicit non-generic kind unchanged and otherwise takes the first matching
rule of the fixed ordered rule list over the lowercased description,
defaulting to the backend kind. -/
theorem selectAgent_eq_spec (task : Task) : selectAgent task = specSelectAgent task := by
  unfold selectAgent specSelectAgent
  cases task.type with
  | kind a => rfl
  | general => rw [inferAgentType_eq_chain, chainOf_eq_find]

/-- C8: dispatching onto a full queue fails with the queue-full error and
leaves the state unchanged; dispatching below capacity succeeds. -/
theorem dispatch_queueFull (cfg : OrchestratorConfig) (now : Nat) (task : Task) (g : GState) :
    (cfg.queueSize ≤ g.st.taskQueue.length →
      dispatch cfg now task g.st = .error .queueFull ∧ gstep cfg g (.dispatch now task) = g) ∧
    (g.st.taskQueue.length < cfg.queueSize →
      ∀ e, dispatch cfg now task g.st ≠ .error e) := by
  constructor
  · intro h
    have hfull : g.st.taskQueue.length ≥ cfg.queueSize := h
    constructor
    · simp [dispatch, hfull]
    · simp [gstep, dispatch, hfull]
  · intro h e
    have hfull : ¬ g.st.taskQueue.length ≥ cfg.queueSize := by omega
    simp [dispatch, hfull]

/-- Witness for C8: with capacity one, a queue already holding one item
rejects a dispatch unchanged, while the empty queue accepts it. -/
theorem dispatch_queueFull_witness :
    (dispatch ⟨4, 1, 300000, true, 3, false, 60000⟩ 0 sampleTask
        { initState with taskQueue := [⟨sampleTask2, 25, 0, 0, none, none⟩] } = .error .queueFull ∧
      gstep ⟨4, 1, 300000, true, 3, false, 60000⟩
        ⟨{ initState with taskQueue := [⟨sampleTask2, 25, 0, 0, none, none⟩] }, ["t2"], []⟩
        (.dispatch 0 sampleTask) =
        ⟨{ initState with taskQueue := [⟨sampleTask2, 25, 0, 0, none, none⟩] }, ["t2"], []⟩) ∧
    (∀ e, dispatch ⟨4, 1, 300000, true, 3, false, 60000⟩ 0 sampleTask initState ≠ .error e) :=
  ⟨(dispatch_queueFull ⟨4, 1, 300000, true, 3, false, 60000⟩ 0 sampleTask
      ⟨{ initState with taskQueue := [⟨sampleTask2, 25, 0, 0, none, none⟩] }, ["t2"], []⟩).1
      (by decide),
   (dispatch_queueFull ⟨4, 1, 300000, true, 3, false, 60000⟩ 0 sampleTask
      ⟨initState, [], []⟩).2 (by decide)⟩

theorem insertD_perm (key : α → Int) (x : α) (l : List α) :
    (insertD key x l).Perm (x :: l) := by
  induction l with
  | nil => simp [insertD]
  | cons y ys ih =>
      simp only [insertD]
      split
      · exact (ih.cons y).trans (List.Perm.swap x y ys)
      · exact List.Perm.refl _

theorem stableSortD_perm (key : α → Int) (l : List α) :
    (stableSortD key l).Perm l := by
  induction l with
  | nil => simp [stableSortD]
  | cons a l ih => exact (insertD_perm key a (stableSortD key l)).trans (ih.cons a)

theorem pairwise_insertD (key : α → Int) (x : α) (l : List α)
    (h : l.Pairwise (fun a b => key b ≤ key a)) :
    (insertD key x l).Pairwise (fun a b => key b ≤ key a) := by
  induction l with
  | nil => simp [insertD]
  | cons y ys ih =>
      rw [List.pairwise_cons] at h
      by_cases hxy : key x < key y
      · simp only [insertD, if_pos hxy, List.pairwise_cons]
        refine ⟨?_, ih h.2⟩
        intro b hb
        rcases List.mem_cons.1 ((insertD_perm key x ys).mem_iff.1 hb) with rfl | hb
        · omega
        · exact h.1 b hb
      · simp only [insertD, if_neg hxy, List.pairwise_cons]
        refine ⟨?_, h⟩
        intro b hb
        rcases List.mem_cons.1 hb with rfl | hb
        · omega
        · have := h.1 b hb
          omega

/-- The stable sort is sorted descending by key. -/
theorem stableSortD_sorted (key : α → Int) (l : List α) :
    (stableSortD key l).Pairwise (fun a b => key b ≤ key a) := by
  induction l with
  | nil => simp [stableSortD]
  | cons a l ih => exact pairwise_insertD key a _ ih

theorem sublist_insertD (key : α → Int) (x : α) (l : List α) :
    l.Sublist (insertD key x l) := by
  induction l with
  | nil => simp [insertD]
  | cons y ys ih =>
      by_cases hxy : key x < key y
      · simpa only [insertD, if_pos hxy] using ih.cons₂ y
      · simpa only [insertD, if_neg hxy] using List.sublist_cons_self x (y :: ys)

theorem pair_sublist_insertD (key : α → Int) (x b : α) (l : List α)
    (hb : b ∈ l) (hle : key b ≤ key x) : [x, b].Sublist (insertD key x l) := by
  induction l with
  | nil => cases hb
  | cons y ys ih =>
      by_cases hxy : key x < key y
      · simp only [insertD, if_pos hxy]
        rcases List.mem_cons.1 hb with rfl | hb'
        · exact absurd hle (by omega)
        · exact (ih hb').cons y
      · simp only [insertD, if_neg hxy]
        exact (List.singleton_sublist.2 hb).cons₂ x

/-- Stability of the sort: an ordered pair of the input whose keys do not
increase stays in the same relative order in the output; in particular
equal-key items are never reordered. -/
theorem pair_sublist_stableSortD (key : α → Int) (a b : α) (l : List α)
    (h : [a, b].Sublist l) (hle : key b ≤ key a) :
    [a, b].Sublist (stableSortD key l) := by
  induction l with
  | nil => cases h
  | cons c l ih =>
      rw [List.sublist_cons_iff] at h
      simp only [stableSortD]
      rcases h with h | ⟨r, hr, hsub⟩
      · exact (ih h).trans (sublist_insertD key c _)
      · injection hr with h1 h2
        subst h1
        subst h2
        have hbmem : b ∈ stableSortD key l := by
          have hbl : b ∈ l := List.singleton_sublist.1 hsub
          exact ((stableSortD_perm key l).mem_iff).2 hbl
        exact pair_sublist_insertD key a b _ hbmem hle

/-- The slots `admitLoop` creates for the admitted prefix, with
consecutive execution ids. -/
def mkSlots (now : Nat) : Nat → List QueueItem → List ActiveAgentInfo
  | _, [] => []
  | execId, item :: rest => mkSlot now execId item :: mkSlots now (execId + 1) rest

/-- The `agent-started` events emitted for the admitted prefix. -/
def startedEvents (items : List QueueItem) : List Ev :=
  items.map (fun item => ⟨"agent-started", item.task.id, 0⟩)

/-- The number of items `admitLoop` admits. -/
def admitCount (cfg : OrchestratorConfig) (s : OState) : Nat :=
  min (cfg.maxConcurrent - s.active.length) s.taskQueue.length

/-- Closed form of the admission loop: exactly the first
`min (maxConcurrent - active) queueLength` queued items are admitted, in
queue order, appended to the in-flight list in that order; every other
field of the state is untouched apart from the fresh execution ids and
the emitted `agent-started` events. -/
theorem admitLoop_eq (cfg : OrchestratorConfig) (now : Nat) (s : OState) :
    admitLoop cfg now s =
      { s with
        taskQueue := s.taskQueue.drop (admitCount cfg s),
        active := s.active ++ mkSlots now s.nextExecId (s.taskQueue.take (admitCount cfg s)),
        nextExecId := s.nextExecId + admitCount cfg s,
        events := s.events ++ startedEvents (s.taskQueue.take (admitCount cfg s)) } := by
  obtain ⟨q, act, comp, fl, run, pse, stt, cost, nid, evs⟩ := s
  show admitGo cfg now q ⟨q, act, comp, fl, run, pse, stt, cost, nid, evs⟩ = _
  induction q generalizing act nid evs with
  | nil => simp [admitGo, admitCount, mkSlots, startedEvents]
  | cons item rest ih =>
      by_cases hlt : act.length < cfg.maxConcurrent
      · have hstep :
            admitGo cfg now (item :: rest) ⟨item :: rest, act, comp, fl, run, pse, stt, cost, nid, evs⟩
              = admitGo cfg now rest
                  (executeTask now item ⟨rest, act, comp, fl, run, pse, stt, cost, nid, evs⟩) := by
          rw [admitGo, if_pos hlt]
        rw [hstep]
        simp only [executeTask]
        rw [ih]
        have hk : min (cfg.maxConcurrent - act.length) (rest.length + 1)
            = min (cfg.maxConcurrent - (act.length + 1)) rest.length + 1 := by omega
        simp only [admitCount, List.length_cons, List.length_append,
          List.length_singleton, List.length_nil, List.nil_append, Nat.add_zero, hk,
          List.drop_succ_cons, List.take_succ_cons, mkSlots, startedEvents,
          List.map_cons, List.cons_append, List.append_assoc, List.singleton_append]
        congr 1
        omega
      · rw [admitGo, if_neg hlt]
        have hz : cfg.maxConcurrent - act.length = 0 := by omega
        simp [hz, admitCount, mkSlots, startedEvents]

/-- The task id of a queued item. -/
def qTid (i : QueueItem) : String := i.task.id

/-- The task id owned by an in-flight slot. -/
def aTid (i : ActiveAgentInfo) : String := i.item.task.id

theorem mkSlots_length (now : Nat) :
    ∀ (execId : Nat) (items : List QueueItem), (mkSlots now execId items).length = items.length := by
  intro execId items
  induction items generalizing execId with
  | nil => rfl
  | cons item rest ih => simp [mkSlots, ih]

theorem mkSlots_map_tid (now : Nat) :
    ∀ (execId : Nat) (items : List QueueItem),
      (mkSlots now execId items).map aTid = items.map qTid := by
  intro execId items
  induction items generalizing execId with
  | nil => rfl
  | cons item rest ih => simp [mkSlots, ih, mkSlot, aTid, qTid]

theorem boostItem_task (cfg : OrchestratorConfig) (now : Nat) (item : QueueItem) :
    (boostItem cfg now item).task = item.task := by
  simp only [boostItem]
  split <;> rfl

theorem sortQueue_perm (q : List QueueItem) : (sortQueue q).Perm q :=
  stableSortD_perm _ q

/-- The ids currently queued, as a multiset. -/
def qTids (s : OState) : Multiset String := (s.taskQueue.map qTid : List String)

/-- The ids currently in flight, as a multiset. -/
def aTids (s : OState) : Multiset String := (s.active.map aTid : List String)

/-- The ids of completed results, as a multiset. -/
def cTids (s : OState) : Multiset String := (s.completedTasks.map TaskResult.taskId : List String)

/-- The ids of failed results, as a multiset. -/
def fTids (s : OState) : Multiset String := (s.failedTasks.map TaskResult.taskId : List String)

/-- Every id the orchestrator is currently accountable for. -/
def liveTids (s : OState) : Multiset String := qTids s + aTids s + cTids s + fTids s

theorem boostAgedTasks_qTids (cfg : OrchestratorConfig) (now : Nat) (s : OState) :
    qTids (boostAgedTasks cfg now s) = qTids s := by
  simp only [qTids, boostAgedTasks, Multiset.coe_eq_coe]
  refine ((sortQueue_perm _).map qTid).trans ?_
  rw [List.map_map]
  refine List.Perm.of_eq ?_
  refine List.map_congr_left ?_
  intro item _
  simp [qTid, Function.comp, boostItem_task]

theorem processQueue_completedTasks (cfg : OrchestratorConfig) (now : Nat) (s : OState) :
    (processQueue cfg now s).completedTasks = s.completedTasks := by
  unfold processQueue
  split
  · rfl
  · rw [admitLoop_eq]
    split <;> rfl

theorem processQueue_failedTasks (cfg : OrchestratorConfig) (now : Nat) (s : OState) :
    (processQueue cfg now s).failedTasks = s.failedTasks := by
  unfold processQueue
  split
  · rfl
  · rw [admitLoop_eq]
    split <;> rfl

theorem processQueue_totalCost (cfg : OrchestratorConfig) (now : Nat) (s : OState) :
    (processQueue cfg now s).totalCost = s.totalCost := by
  unfold processQueue
  split
  · rfl
  · rw [admitLoop_eq]
    split <;> rfl

theorem processQueue_flags (cfg : OrchestratorConfig) (now : Nat) (s : OState) :
    (processQueue cfg now s).isRunning = s.isRunning ∧
      (processQueue cfg now s).isPaused = s.isPaused := by
  unfold processQueue
  split
  · exact ⟨rfl, rfl⟩
  · rw [admitLoop_eq]
    split <;> exact ⟨rfl, rfl⟩

theorem processQueue_events_append (cfg : OrchestratorConfig) (now : Nat) (s : OState) :
    ∃ tail, (processQueue cfg now s).events = s.events ++ tail := by
  unfold processQueue
  split
  · exact ⟨[], by simp⟩
  · rw [admitLoop_eq]
    split
    · exact ⟨_, rfl⟩
    · exact ⟨_, rfl⟩

theorem processQueue_cTids (cfg : OrchestratorConfig) (now : Nat) (s : OState) :
    cTids (processQueue cfg now s) = cTids s := by
  simp [cTids, processQueue_completedTasks]

theorem processQueue_fTids (cfg : OrchestratorConfig) (now : Nat) (s : OState) :
    fTids (processQueue cfg now s) = fTids s := by
  simp [fTids, processQueue_failedTasks]

/-- Admission conserves the multiset of queued-plus-in-flight task ids. -/
theorem processQueue_queue_active_tids (cfg : OrchestratorConfig) (now : Nat) (s : OState) :
    qTids (processQueue cfg now s) + aTids (processQueue cfg now s) = qTids s + aTids s := by
  unfold processQueue
  split
  · rfl
  · rw [admitLoop_eq]
    have key : ∀ t : OState,
        qTids ({ t with
          taskQueue := t.taskQueue.drop (admitCount cfg t),
          active := t.active ++ mkSlots now t.nextExecId (t.taskQueue.take (admitCount cfg t)),
          nextExecId := t.nextExecId + admitCount cfg t,
          events := t.events ++ startedEvents (t.taskQueue.take (admitCount cfg t)) }) +
        aTids ({ t with
          taskQueue := t.taskQueue.drop (admitCount cfg t),
          active := t.active ++ mkSlots now t.nextExecId (t.taskQueue.take (admitCount cfg t)),
          nextExecId := t.nextExecId + admitCount cfg t,
          events := t.events ++ startedEvents (t.taskQueue.take (admitCount cfg t)) }) =
          qTids t + aTids t := by
      intro t
      simp only [qTids, aTids, List.map_append, mkSlots_map_tid, ← Multiset.coe_add]
      have hq : (↑((t.taskQueue.take (admitCount cfg t)).map qTid) : Multiset String) +
          ↑((t.taskQueue.drop (admitCount cfg t)).map qTid) =
            (↑(t.taskQueue.map qTid) : Multiset String) := by
        rw [Multiset.coe_add, ← List.map_append, List.take_append_drop]
      rw [← hq]
      abel
    split
    · rw [key]
      rw [show aTids (boostAgedTasks cfg now s) = aTids s from rfl, boostAgedTasks_qTids]
    · rw [key]

/-- Admission preserves the whole accountable-id multiset. -/
theorem processQueue_liveTids (cfg : OrchestratorConfig) (now : Nat) (s : OState) :
    liveTids (processQueue cfg now s) = liveTids s := by
  unfold liveTids
  rw [processQueue_cTids, processQueue_fTids]
  have h := processQueue_queue_active_tids cfg now s
  rw [show qTids (processQueue cfg now s) + aTids (processQueue cfg now s) + cTids s + fTids s =
      (qTids (processQueue cfg now s) + aTids (processQueue cfg now s)) + cTids s + fTids s from by
    simp [add_assoc]]
  rw [h]

theorem find?_perm (p : α → Bool) (l : List α) (a : α) (h : l.find? p = some a) :
    l.Perm (a :: l.eraseP p) := by
  induction l with
  | nil => cases h
  | cons x xs ih =>
      by_cases hx : p x
      · rw [List.find?_cons_of_pos _ hx] at h
        injection h with h
        subst h
        rw [List.eraseP_cons_of_pos hx]
      · rw [List.find?_cons_of_neg _ hx] at h
        rw [List.eraseP_cons_of_neg hx]
        exact ((ih h).cons x).trans (List.Perm.swap a x _)

theorem aTids_of_find? (s : OState) (p : ActiveAgentInfo → Bool) (info : ActiveAgentInfo)
    (h : s.active.find? p = some info) :
    aTids s = {aTid info} + ↑((s.active.eraseP p).map aTid) := by
  unfold aTids
  rw [Multiset.coe_eq_coe.2 ((find?_perm p s.active info h).map aTid)]
  simp [Multiset.singleton_add]

theorem removeFirstTask_tids (tid : String) :
    ∀ q q' : List QueueItem, removeFirstTask tid q = some q' →
      (↑(q.map qTid) : Multiset String) = {tid} + ↑(q'.map qTid) := by
  intro q
  induction q with
  | nil => intro q' h; cases h
  | cons item rest ih =>
      intro q' h
      by_cases hid : item.task.id = tid
      · rw [removeFirstTask, if_pos hid] at h
        injection h with h
        subst h
        simp [qTid, hid, Multiset.singleton_add]
      · rw [removeFirstTask, if_neg hid] at h
        cases hrec : removeFirstTask tid rest with
        | none => rw [hrec] at h; cases h
        | some r =>
            rw [hrec] at h
            injection h with h
            subst h
            simp only [List.map_cons, ← Multiset.cons_coe, ← Multiset.singleton_add]
            rw [ih r hrec]
            abel

/-- The error handler leaves the in-flight set untouched. -/
theorem handleTaskError_active (cfg : OrchestratorConfig) (now : Nat) (item : QueueItem)
    (msg : String) (s : OState) : (handleTaskError cfg now item msg s).active = s.active := by
  simp only [handleTaskError]
  split <;> rfl

/-- Settlement of an unknown execution id is a no-op. -/
theorem settle_eq_none (cfg : OrchestratorConfig) (now execId : Nat) (out : AttemptOutcome)
    (s : OState) (h : s.active.find? (fun i => i.executionId == execId) = none) :
    settle cfg now execId out s = s := by
  unfold settle
  rw [h]

/-- Settlement equation for a resolved phase cycle. -/
theorem settle_eq_resolved (cfg : OrchestratorConfig) (now execId : Nat) (d : CycleData)
    (s : OState) (info : ActiveAgentInfo)
    (h : s.active.find? (fun i => i.executionId == execId) = some info) :
    settle cfg now execId (.resolved d) s =
      processQueue cfg now
        { handleTaskCompletion (mkCycleResult info.item.task d) s with
          active := (handleTaskCompletion (mkCycleResult info.item.task d) s).active.eraseP
            (fun i => i.executionId == execId) } := by
  unfold settle
  rw [h]

/-- Settlement equation for a rejected phase cycle. -/
theorem settle_eq_rejected (cfg : OrchestratorConfig) (now execId : Nat) (msg : String)
    (s : OState) (info : ActiveAgentInfo)
    (h : s.active.find? (fun i => i.executionId == execId) = some info) :
    settle cfg now execId (.rejected msg) s =
      processQueue cfg now
        { handleTaskError cfg now info.item msg s with
          active := (handleTaskError cfg now info.item msg s).active.eraseP
            (fun i => i.executionId == execId) } := by
  unfold settle
  rw [h]

/-- The timeout winning the race settles exactly like a rejection carrying
the timeout message: both run through the same catch handler. -/
theorem settle_timedOut_eq (cfg : OrchestratorConfig) (now execId : Nat) (s : OState) :
    settle cfg now execId .timedOut s =
      settle cfg now execId (.rejected (timeoutMessage cfg)) s := by
  unfold settle
  cases hfind : s.active.find? (fun i => i.executionId == execId) <;> rfl

/-- One failed settlement conserves the accountable-id multiset: the
slot's task id moves either back to the queue or onto the failed list. -/
theorem handleTaskError_erase_liveTids (cfg : OrchestratorConfig) (now : Nat)
    (item : QueueItem) (msg : String) (s : OState) (E : List ActiveAgentInfo)
    (haT : aTids s = {item.task.id} + ↑(E.map aTid)) :
    liveTids { (handleTaskError cfg now item msg s) with active := E } = liveTids s := by
  unfold aTids at haT
  unfold liveTids qTids aTids cTids fTids
  simp only [handleTaskError]
  split
  · simp only [List.map_append, ← Multiset.coe_add]
    have hq : (↑((sortQueue (s.taskQueue ++
        [{ item with attempts := item.attempts + 1, lastAttemptAt := some now, error := some msg }])).map qTid) :
          Multiset String)
        = ↑(s.taskQueue.map qTid) + {item.task.id} := by
      rw [Multiset.coe_eq_coe.2 ((sortQueue_perm _).map qTid)]
      simp [qTid, ← Multiset.coe_add, Multiset.coe_singleton]
    rw [hq, haT]
    abel
  · simp only [List.map_append, ← Multiset.coe_add, List.map_cons, List.map_nil]
    rw [show (([(failureResult now
          { item with attempts := item.attempts + 1, lastAttemptAt := some now, error := some msg } msg).taskId] :
            List String) : Multiset String) = {item.task.id} from by
      simp [failureResult, Multiset.coe_singleton]]
    rw [haT]
    abel

/-- Settlement conserves the accountable-id multiset: the settled slot's
task id moves to the queue (retry), the completed list, or the failed
list. -/
theorem settle_liveTids (cfg : OrchestratorConfig) (now execId : Nat)
    (out : AttemptOutcome) (s : OState) :
    liveTids (settle cfg now execId out s) = liveTids s := by
  cases hf : s.active.find? (fun i => i.executionId == execId) with
  | none => rw [settle_eq_none cfg now execId out s hf]
  | some info =>
      have haT := aTids_of_find? s _ info hf
      rw [show aTid info = info.item.task.id from rfl] at haT
      cases out with
      | resolved d =>
          rw [settle_eq_resolved cfg now execId d s info hf, processQueue_liveTids]
          unfold aTids at haT
          unfold handleTaskCompletion
          split
          · unfold liveTids qTids aTids cTids fTids
            simp only [List.map_append, ← Multiset.coe_add, List.map_cons, List.map_nil]
            rw [show (([(mkCycleResult info.item.task d).taskId] : List String) : Multiset String)
                = {info.item.task.id} from by simp [mkCycleResult, Multiset.coe_singleton]]
            rw [haT]
            abel
          · unfold liveTids qTids aTids cTids fTids
            simp only [List.map_append, ← Multiset.coe_add, List.map_cons, List.map_nil]
            rw [show (([(mkCycleResult info.item.task d).taskId] : List String) : Multiset String)
                = {info.item.task.id} from by simp [mkCycleResult, Multiset.coe_singleton]]
            rw [haT]
            abel
      | rejected msg =>
          rw [settle_eq_rejected cfg now execId msg s info hf, processQueue_liveTids,
            handleTaskError_active]
          exact handleTaskError_erase_liveTids cfg now info.item msg s _ haT
      | timedOut =>
          rw [settle_timedOut_eq,
            settle_eq_rejected cfg now execId (timeoutMessage cfg) s info hf,
            processQueue_liveTids, handleTaskError_active]
          exact handleTaskError_erase_liveTids cfg now info.item (timeoutMessage cfg) s _ haT

theorem start_liveTids (cfg : OrchestratorConfig) (now : Nat) (s : OState) :
    liveTids (start cfg now s) = liveTids s := by
  unfold start
  split
  · rfl
  · rw [processQueue_liveTids]
    rfl

theorem resume_liveTids (cfg : OrchestratorConfig) (now : Nat) (s : OState) :
    liveTids (resume cfg now s) = liveTids s := by
  unfold resume
  rw [processQueue_liveTids]
  rfl

theorem setPhase_liveTids (execId : Nat) (p : RARVPhase) (s : OState) :
    liveTids (setPhase execId p s) = liveTids s := by
  unfold liveTids qTids aTids cTids fTids setPhase
  simp only [List.map_map]
  rw [show List.map (aTid ∘ fun i => if i.executionId == execId then { i with phase := p } else i)
        s.active = List.map aTid s.active from by
    refine List.map_congr_left ?_
    intro i _
    simp only [Function.comp]
    split <;> rfl]

/-- The dispatched / cancelled / accounted-for task ids balance: every
successfully dispatched id is exactly once either queued, in flight,
completed, failed, or cancelled. -/
def tidInv (g : GState) : Prop :=
  liveTids g.st + ↑g.cancelled = (↑g.dispatched : Multiset String)

theorem gstep_tidInv (cfg : OrchestratorConfig) (g : GState) (c : Cmd) (h : tidInv g) :
    tidInv (gstep cfg g c) := by
  cases c with
  | start now => unfold tidInv at h ⊢; rw [gstep, start_liveTids]; exact h
  | pause => unfold tidInv at h ⊢; exact h
  | resume now => unfold tidInv at h ⊢; rw [gstep, resume_liveTids]; exact h
  | rarvPhase execId p => unfold tidInv at h ⊢; rw [gstep, setPhase_liveTids]; exact h
  | settle now execId out => unfold tidInv at h ⊢; rw [gstep, settle_liveTids]; exact h
  | dispatch now task =>
      by_cases hfull : g.st.taskQueue.length ≥ cfg.queueSize
      · simp only [gstep, dispatch, if_pos hfull]
        exact h
      · simp only [gstep, dispatch, if_neg hfull]
        unfold tidInv at h ⊢
        have hS1 : liveTids { g.st with
            taskQueue := sortQueue (g.st.taskQueue ++
              [{ task := task, priority := calculatePriority task, addedAt := now, attempts := 0 }]),
            events := g.st.events ++ [⟨"task-queued", task.id, 0⟩] } =
            {task.id} + liveTids g.st := by
          unfold liveTids qTids aTids cTids fTids
          rw [show (↑((sortQueue (g.st.taskQueue ++
              [{ task := task, priority := calculatePriority task, addedAt := now,
                 attempts := 0 }])).map qTid) : Multiset String)
              = ↑(g.st.taskQueue.map qTid) + {task.id} from by
            rw [Multiset.coe_eq_coe.2 ((sortQueue_perm _).map qTid)]
            simp [qTid, ← Multiset.coe_add, Multiset.coe_singleton]]
          abel
        rw [show ((↑(g.dispatched ++ [task.id]) : Multiset String))
            = ↑g.dispatched + {task.id} from by simp [← Multiset.coe_add, Multiset.coe_singleton]]
        split
        · rw [processQueue_liveTids, hS1, ← h]
          abel
        · rw [hS1, ← h]
          abel
  | cancel tid =>
      cases hrem : removeFirstTask tid g.st.taskQueue with
      | some q =>
          simp only [gstep, cancelTask, hrem]
          unfold tidInv at h ⊢
          have hq := removeFirstTask_tids tid g.st.taskQueue q hrem
          unfold liveTids qTids aTids cTids fTids at h ⊢
          rw [hq] at h
          rw [show ((↑(g.cancelled ++ [tid]) : Multiset String))
              = ↑g.cancelled + {tid} from by simp [← Multiset.coe_add, Multiset.coe_singleton]]
          rw [← h]
          abel
      | none =>
          simp only [gstep, cancelTask, hrem]
          exact h

/-- The freshly constructed ghost state satisfies the id balance. -/
theorem initG_tidInv : tidInv initG := by
  unfold tidInv liveTids qTids aTids cTids fTids initG initState
  simp

theorem runG_tidInv (cfg : OrchestratorConfig) (trace : List Cmd) : tidInv (runG cfg trace) := by
  unfold runG
  have hgen : ∀ (l : List Cmd) (g : GState), tidInv g → tidInv (l.foldl (gstep cfg) g) := by
    intro l
    induction l with
    | nil => intro g hg; exact hg
    | cons c rest ih => intro g hg; exact ih _ (gstep_tidInv cfg g c hg)
  exact hgen trace initG initG_tidInv

theorem handleTaskCompletion_active (r : TaskResult) (s : OState) :
    (handleTaskCompletion r s).active = s.active := by
  unfold handleTaskCompletion
  split <;> rfl

theorem processQueue_active_le (cfg : OrchestratorConfig) (now : Nat) (s : OState)
    (h : s.active.length ≤ cfg.maxConcurrent) :
    (processQueue cfg now s).active.length ≤ cfg.maxConcurrent := by
  unfold processQueue
  split
  · exact h
  · rw [admitLoop_eq]
    split
    · simp only [List.length_append, mkSlots_length, List.length_take, admitCount,
        boostAgedTasks]
      omega
    · simp only [List.length_append, mkSlots_length, List.length_take, admitCount]
      omega

/-- At or above the concurrency limit the admission loop admits nothing. -/
theorem processQueue_at_capacity (cfg : OrchestratorConfig) (now : Nat) (s : OState)
    (h : cfg.maxConcurrent ≤ s.active.length) :
    (processQueue cfg now s).active = s.active := by
  unfold processQueue
  split
  · rfl
  · rw [admitLoop_eq]
    split
    · simp [admitCount, Nat.sub_eq_zero_of_le h, mkSlots, boostAgedTasks]
    · simp [admitCount, Nat.sub_eq_zero_of_le h, mkSlots]

theorem gstep_active_le (cfg : OrchestratorConfig) (g : GState) (c : Cmd)
    (h : g.st.active.length ≤ cfg.maxConcurrent) :
    (gstep cfg g c).st.active.length ≤ cfg.maxConcurrent := by
  cases c with
  | start now =>
      simp only [gstep]
      unfold start
      split
      · exact h
      · exact processQueue_active_le cfg now _ h
  | pause => exact h
  | resume now =>
      simp only [gstep]
      unfold resume
      exact processQueue_active_le cfg now _ h
  | rarvPhase execId p =>
      simp only [gstep]
      unfold setPhase
      simpa using h
  | dispatch now task =>
      by_cases hfull : g.st.taskQueue.length ≥ cfg.queueSize
      · simp only [gstep, dispatch, if_pos hfull]
        exact h
      · simp only [gstep, dispatch, if_neg hfull]
        split
        · exact processQueue_active_le cfg now _ h
        · exact h
  | cancel tid =>
      cases hrem : removeFirstTask tid g.st.taskQueue with
      | some q => simp only [gstep, cancelTask, hrem]; exact h
      | none => simp only [gstep, cancelTask, hrem]; exact h
  | settle now execId out =>
      simp only [gstep]
      cases hf : g.st.active.find? (fun i => i.executionId == execId) with
      | none => rw [settle_eq_none cfg now execId out g.st hf]; exact h
      | some info =>
          cases out with
          | resolved d =>
              rw [settle_eq_resolved cfg now execId d g.st info hf]
              refine processQueue_active_le cfg now _ ?_
              have hlen : ((handleTaskCompletion (mkCycleResult info.item.task d)
                  g.st).active.eraseP (fun i => i.executionId == execId)).length ≤
                    cfg.maxConcurrent := by
                rw [handleTaskCompletion_active]
                exact le_trans (List.length_eraseP_le _) h
              exact hlen
          | rejected msg =>
              rw [settle_eq_rejected cfg now execId msg g.st info hf]
              refine processQueue_active_le cfg now _ ?_
              have hlen : ((handleTaskError cfg now info.item msg
                  g.st).active.eraseP (fun i => i.executionId == execId)).length ≤
                    cfg.maxConcurrent := by
                rw [handleTaskError_active]
                exact le_trans (List.length_eraseP_le _) h
              exact hlen
          | timedOut =>
              rw [settle_timedOut_eq,
                settle_eq_rejected cfg now execId (timeoutMessage cfg) g.st info hf]
              refine processQueue_active_le cfg now _ ?_
              have hlen : ((handleTaskError cfg now info.item (timeoutMessage cfg)
                  g.st).active.eraseP (fun i => i.executionId == execId)).length ≤
                    cfg.maxConcurrent := by
                rw [handleTaskError_active]
                exact le_trans (List.length_eraseP_le _) h
              exact hlen

theorem runG_active_le (cfg : OrchestratorConfig) (trace : List Cmd) :
    (runG cfg trace).st.active.length ≤ cfg.maxConcurrent := by
  unfold runG
  have hgen : ∀ (l : List Cmd) (g : GState), g.st.active.length ≤ cfg.maxConcurrent →
      (l.foldl (gstep cfg) g).st.active.length ≤ cfg.maxConcurrent := by
    intro l
    induction l with
    | nil => intro g hg; exact hg
    | cons c rest ih => intro g hg; exact ih _ (gstep_active_le cfg g c hg)
  exact hgen trace initG (by simp [initG, initState])

/-- C3: at every observable instant the in-flight slot count is bounded by
the configured concurrency limit, and the admission loop admits nothing
unless the in-flight count is strictly below the limit. -/
theorem inflight_bounded (cfg : OrchestratorConfig) (trace : List Cmd) :
    (runG cfg trace).st.active.length ≤ cfg.maxConcurrent ∧
      (∀ (now : Nat) (s : OState), cfg.maxConcurrent ≤ s.active.length →
        (processQueue cfg now s).active = s.active) :=
  ⟨runG_active_le cfg trace, fun now s h => processQueue_at_capacity cfg now s h⟩

/-- A concrete one-slot state used by the C3 witness. -/
def busyState : OState :=
  { initState with
    isRunning := true,
    active := [⟨0, .backend, ⟨sampleTask, 50, 0, 0, none, none⟩, 0, .reason⟩] }

/-- Witness for C3 at a concrete configuration, trace and saturated state. -/
theorem inflight_bounded_witness :
    (runG ⟨1, 10, 1000, true, 3, false, 60000⟩
        [.start 0, .dispatch 0 sampleTask, .dispatch 0 sampleTask2]).st.active.length ≤ 1 ∧
      (processQueue ⟨1, 10, 1000, true, 3, false, 60000⟩ 0 busyState).active = busyState.active :=
  ⟨(inflight_bounded ⟨1, 10, 1000, true, 3, false, 60000⟩
      [.start 0, .dispatch 0 sampleTask, .dispatch 0 sampleTask2]).1,
   (inflight_bounded ⟨1, 10, 1000, true, 3, false, 60000⟩ []).2 0 busyState (by decide)⟩

/-- The task ids of the dispatch commands of a trace, in order. -/
def dispatchIds (trace : List Cmd) : List String :=
  trace.filterMap fun c =>
    match c with
    | .dispatch _ task => some task.id
    | _ => none

theorem dispatched_sublist (cfg : OrchestratorConfig) :
    ∀ (trace : List Cmd) (g : GState), ∃ t,
      (trace.foldl (gstep cfg) g).dispatched = g.dispatched ++ t ∧ t.Sublist (dispatchIds trace) := by
  intro trace
  induction trace with
  | nil => exact fun g => ⟨[], by simp, List.nil_sublist _⟩
  | cons c rest ih =>
      intro g
      cases c with
      | dispatch now task =>
          by_cases hfull : g.st.taskQueue.length ≥ cfg.queueSize
          · obtain ⟨t, ht, hsub⟩ := ih (gstep cfg g (.dispatch now task))
            refine ⟨t, ?_, ?_⟩
            · rw [List.foldl_cons, ht]
              simp [gstep, dispatch, if_pos hfull]
            · simp only [dispatchIds, List.filterMap_cons]
              exact hsub.trans (List.sublist_cons_self _ _)
          · obtain ⟨t, ht, hsub⟩ := ih (gstep cfg g (.dispatch now task))
            refine ⟨task.id :: t, ?_, ?_⟩
            · rw [List.foldl_cons, ht]
              simp [gstep, dispatch, if_neg hfull]
            · simp only [dispatchIds, List.filterMap_cons]
              exact hsub.cons₂ task.id
      | start now =>
          obtain ⟨t, ht, hsub⟩ := ih (gstep cfg g (.start now))
          exact ⟨t, by rw [List.foldl_cons, ht]; rfl, hsub⟩
      | pause =>
          obtain ⟨t, ht, hsub⟩ := ih (gstep cfg g .pause)
          exact ⟨t, by rw [List.foldl_cons, ht]; rfl, hsub⟩
      | resume now =>
          obtain ⟨t, ht, hsub⟩ := ih (gstep cfg g (.resume now))
          exact ⟨t, by rw [List.foldl_cons, ht]; rfl, hsub⟩
      | cancel tid =>
          obtain ⟨t, ht, hsub⟩ := ih (gstep cfg g (.cancel tid))
          refine ⟨t, ?_, hsub⟩
          rw [List.foldl_cons, ht]
          cases hrem : removeFirstTask tid g.st.taskQueue with
          | some q => simp [gstep, cancelTask, hrem]
          | none => simp [gstep, cancelTask, hrem]
      | settle now execId out =>
          obtain ⟨t, ht, hsub⟩ := ih (gstep cfg g (.settle now execId out))
          exact ⟨t, by rw [List.foldl_cons, ht]; rfl, hsub⟩
      | rarvPhase execId p =>
          obtain ⟨t, ht, hsub⟩ := ih (gstep cfg g (.rarvPhase execId p))
          exact ⟨t, by rw [List.foldl_cons, ht]; rfl, hsub⟩

theorem runG_dispatched_nodup (cfg : OrchestratorConfig) (trace : List Cmd)
    (hnodup : (dispatchIds trace).Nodup) : (runG cfg trace).dispatched.Nodup := by
  obtain ⟨t, ht, hsub⟩ := dispatched_sublist cfg trace initG
  unfold runG
  rw [ht]
  simpa [initG] using hsub.nodup hnodup

/-- C2: at quiescence (empty queue, nothing in flight) the completed,
terminally-failed and cancelled counts add up to the number of
successfully dispatched tasks, and — when dispatched ids are distinct —
no task id carries more than one terminal result. -/
theorem quiescent_conservation (cfg : OrchestratorConfig) (trace : List Cmd)
    (hq : (runG cfg trace).st.taskQueue = [])
    (ha : (runG cfg trace).st.active = [])
    (hnodup : (dispatchIds trace).Nodup) :
    (runG cfg trace).st.completedTasks.length + (runG cfg trace).st.failedTasks.length +
        (runG cfg trace).cancelled.length = (runG cfg trace).dispatched.length ∧
      (((runG cfg trace).st.completedTasks ++ (runG cfg trace).st.failedTasks).map
        TaskResult.taskId).Nodup := by
  have hinv := runG_tidInv cfg trace
  unfold tidInv liveTids at hinv
  have hq0 : qTids (runG cfg trace).st = 0 := by simp [qTids, hq]
  have ha0 : aTids (runG cfg trace).st = 0 := by simp [aTids, ha]
  rw [hq0, ha0, zero_add, zero_add] at hinv
  constructor
  · have hcard := congrArg Multiset.card hinv
    simp [cTids, fTids, Multiset.coe_card] at hcard
    omega
  · have hnd : ((runG cfg trace).dispatched : Multiset String).Nodup :=
      Multiset.coe_nodup.2 (runG_dispatched_nodup cfg trace hnodup)
    have hle : cTids (runG cfg trace).st + fTids (runG cfg trace).st ≤
        ((runG cfg trace).dispatched : Multiset String) := by
      rw [← hinv]
      exact Multiset.le_add_right _ _
    have hnodup2 := Multiset.nodup_of_le hle hnd
    rw [cTids, fTids, Multiset.coe_add, Multiset.coe_nodup] at hnodup2
    simpa [List.map_append] using hnodup2

/-- All-zero metrics used by concrete environment outcomes. -/
def zeroMetrics : TaskMetrics := ⟨0, 0, 0, 0, 0, ⟨0, 0, 0, 0, 0⟩⟩

/-- A successfully resolved phase-cycle payload. -/
def okCycle : CycleData := ⟨true, "", [], [], zeroMetrics, [], 0⟩

/-- Configuration used by the scenario witnesses: one slot, queue of ten,
retrying enabled with one attempt, age boost off. -/
def cfgW2 : OrchestratorConfig := ⟨1, 10, 1000, true, 1, false, 60000⟩

/-- Witness trace for C2: two dispatches, one cancel, one completion. -/
def traceW2 : List Cmd :=
  [.start 0, .dispatch 0 sampleTask, .dispatch 0 sampleTask2,
   .cancel "t2", .settle 0 0 (.resolved okCycle)]

/-- Event membership survives the admission loop, which only appends. -/
theorem mem_processQueue_events (cfg : OrchestratorConfig) (now : Nat) (t : OState) (ev : Ev)
    (h : ev ∈ t.events) : ev ∈ (processQueue cfg now t).events := by
  obtain ⟨tail, ht⟩ := processQueue_events_append cfg now t
  rw [ht]
  exact List.mem_append_left _ h

/-- The bumped queue item recorded by `handleTaskError` before branching:
attempt counter incremented, last-attempt time and error message stored. -/
def bumpItem (now : Nat) (msg : String) (item : QueueItem) : QueueItem :=
  { item with attempts := item.attempts + 1, lastAttemptAt := some now, error := some msg }

/-- `handleTaskError` equation when retries remain and retrying is on. -/
theorem handleTaskError_retry (cfg : OrchestratorConfig) (now : Nat) (item : QueueItem)
    (msg : String) (s : OState) (h : cfg.retryFailedTasks = true)
    (h2 : item.attempts + 1 < cfg.maxRetries) :
    handleTaskError cfg now item msg s =
      { s with
        taskQueue := sortQueue (s.taskQueue ++ [bumpItem now msg item]),
        events := s.events ++ [⟨"task-retry", item.task.id, item.attempts + 1⟩] } := by
  simp [handleTaskError, bumpItem, h, h2]

/-- `handleTaskError` equation when retries are exhausted or disabled. -/
theorem handleTaskError_terminal (cfg : OrchestratorConfig) (now : Nat) (item : QueueItem)
    (msg : String) (s : OState)
    (h : ¬(cfg.retryFailedTasks = true ∧ item.attempts + 1 < cfg.maxRetries)) :
    handleTaskError cfg now item msg s =
      { s with
        failedTasks := s.failedTasks ++ [failureResult now (bumpItem now msg item) msg],
        events := s.events ++ [⟨"task-failed", item.task.id, item.attempts + 1⟩] } := by
  unfold handleTaskError bumpItem
  rw [if_neg]
  simpa using h

/-- A phase cycle that resolves with an unsuccessful Result: the promise
settles through the then handler although the attempt failed. -/
def failCycle : CycleData :=
  ⟨false, "", [], [], zeroMetrics, [⟨"EXECUTION_ERROR", "act phase failed", .act, true⟩], 0⟩

theorem startedEvents_filter_retry (items : List QueueItem) :
    (startedEvents items).filter (fun e => e.type == "task-retry") = [] := by
  induction items with
  | nil => rfl
  | cons item rest ih => simp [startedEvents, List.filter_cons, ih]

/-- The admission loop emits only `agent-started` events, so it never adds
a `task-retry` event. -/
theorem processQueue_events_filter_retry (cfg : OrchestratorConfig) (now : Nat) (s : OState) :
    ((processQueue cfg now s).events.filter (fun e => e.type == "task-retry")) =
      s.events.filter (fun e => e.type == "task-retry") := by
  unfold processQueue
  split
  · rfl
  · rw [admitLoop_eq]
    split
    · simp [boostAgedTasks, List.filter_append, startedEvents_filter_retry]
    · simp [List.filter_append, startedEvents_filter_retry]

/-- C1 (amended): attempts that fail by timeout or by a rejected
handler/execution error take one and the same retry policy: a timeout
settles exactly as a rejection with the timeout message; every such
failed attempt bumps the attempt counter and records the error; while the
bumped count remains below `maxRetries` with retrying enabled the bumped
item is re-enqueued and `task-retry` is emitted with the failed set left
untouched; otherwise exactly one terminal failure is appended to the
failed set and `task-failed` is emitted.  An attempt whose phase cycle
resolves with an unsuccessful Result bypasses this policy: its Result is
appended to the failed set immediately — without bumping the attempt
counter and without emitting `task-retry` — even while retries remain. -/
theorem retry_policy_uniform (cfg : OrchestratorConfig) (now execId : Nat) (s : OState)
    (info : ActiveAgentInfo)
    (hf : s.active.find? (fun i => i.executionId == execId) = some info) :
    settle cfg now execId .timedOut s = settle cfg now execId (.rejected (timeoutMessage cfg)) s ∧
    (∀ msg,
      ((cfg.retryFailedTasks = true ∧ info.item.attempts + 1 < cfg.maxRetries) →
        (settle cfg now execId (.rejected msg) s).failedTasks = s.failedTasks ∧
        bumpItem now msg info.item ∈ (handleTaskError cfg now info.item msg s).taskQueue ∧
        (⟨"task-retry", info.item.task.id, info.item.attempts + 1⟩ : Ev) ∈
          (settle cfg now execId (.rejected msg) s).events) ∧
      (¬(cfg.retryFailedTasks = true ∧ info.item.attempts + 1 < cfg.maxRetries) →
        (settle cfg now execId (.rejected msg) s).failedTasks =
          s.failedTasks ++ [failureResult now (bumpItem now msg info.item) msg] ∧
        (⟨"task-failed", info.item.task.id, info.item.attempts + 1⟩ : Ev) ∈
          (settle cfg now execId (.rejected msg) s).events)) ∧
    ∀ d : CycleData, d.success = false →
      (settle cfg now execId (.resolved d) s).failedTasks =
        s.failedTasks ++ [mkCycleResult info.item.task d] ∧
      ((settle cfg now execId (.resolved d) s).events.filter
          (fun e => e.type == "task-retry")) =
        s.events.filter (fun e => e.type == "task-retry") := by
  refine ⟨settle_timedOut_eq cfg now execId s, ?_, ?_⟩
  · intro msg
    constructor
    · intro hret
      rw [settle_eq_rejected cfg now execId msg s info hf]
      rw [handleTaskError_retry cfg now info.item msg s hret.1 hret.2]
      refine ⟨?_, ?_, ?_⟩
      · rw [processQueue_failedTasks]
      · have hmem : bumpItem now msg info.item ∈
            sortQueue (s.taskQueue ++ [bumpItem now msg info.item]) := by
          rw [(sortQueue_perm _).mem_iff]
          simp
        simpa using hmem
      · refine mem_processQueue_events cfg now _ _ ?_
        simp
    · intro hterm
      rw [settle_eq_rejected cfg now execId msg s info hf]
      rw [handleTaskError_terminal cfg now info.item msg s hterm]
      refine ⟨?_, ?_⟩
      · rw [processQueue_failedTasks]
      · refine mem_processQueue_events cfg now _ _ ?_
        simp
  · intro d hd
    rw [settle_eq_resolved cfg now execId d s info hf]
    have hcomp : handleTaskCompletion (mkCycleResult info.item.task d) s =
        { s with
          failedTasks := s.failedTasks ++ [mkCycleResult info.item.task d],
          events := s.events ++ [⟨"task-failed", info.item.task.id, 0⟩] } := by
      unfold handleTaskCompletion
      rw [if_neg (by simp [mkCycleResult, hd])]
      exact rfl
    rw [hcomp]
    refine ⟨?_, ?_⟩
    · rw [processQueue_failedTasks]
    · rw [processQueue_events_filter_retry]
      simp [List.filter_append]

/-- Witness for C1: a saturated one-slot state whose execution settles by
timeout, by a rejected attempt with retries exhausted, and by a resolved
but unsuccessful phase cycle. -/
theorem retry_policy_uniform_witness :
    (settle cfgW2 0 0 .timedOut busyState =
      settle cfgW2 0 0 (.rejected (timeoutMessage cfgW2)) busyState) ∧
    (settle cfgW2 0 0 (.rejected "boom") busyState).failedTasks =
      busyState.failedTasks ++
        [failureResult 0 (bumpItem 0 "boom" (⟨sampleTask, 50, 0, 0, none, none⟩ : QueueItem)) "boom"] ∧
    (settle cfgW2 0 0 (.resolved failCycle) busyState).failedTasks =
      busyState.failedTasks ++ [mkCycleResult sampleTask failCycle] :=
  ⟨(retry_policy_uniform cfgW2 0 0 busyState ⟨0, .backend, ⟨sampleTask, 50, 0, 0, none, none⟩, 0, .reason⟩
      (by decide)).1,
   (((retry_policy_uniform cfgW2 0 0 busyState ⟨0, .backend, ⟨sampleTask, 50, 0, 0, none, none⟩, 0, .reason⟩
      (by decide)).2.1 "boom").2 (by decide)).1,
   ((retry_policy_uniform cfgW2 0 0 busyState ⟨0, .backend, ⟨sampleTask, 50, 0, 0, none, none⟩, 0, .reason⟩
      (by decide)).2.2 failCycle rfl).1⟩

/-- Counterexample to C1 as stated: with retrying enabled and the attempt
count below `maxRetries` (so retries remain), an attempt whose phase cycle
resolves with `success = false` is nevertheless recorded to the failed set
— exactly one Result is appended, carrying the cycle's own retry count
rather than a bumped attempt counter, no `task-retry` is emitted and
nothing is re-enqueued. -/
theorem retry_policy_counterexample :
    (⟨4, 100, 300000, true, 3, false, 60000⟩ : OrchestratorConfig).retryFailedTasks = true ∧
    0 + 1 < (⟨4, 100, 300000, true, 3, false, 60000⟩ : OrchestratorConfig).maxRetries ∧
    busyState.active = [⟨0, .backend, ⟨sampleTask, 50, 0, 0, none, none⟩, 0, .reason⟩] ∧
    busyState.failedTasks = [] ∧
    (settle ⟨4, 100, 300000, true, 3, false, 60000⟩ 0 0 (.resolved failCycle)
        busyState).failedTasks = [mkCycleResult sampleTask failCycle] ∧
    (mkCycleResult sampleTask failCycle).success = false ∧
    (mkCycleResult sampleTask failCycle).retryCount = 0 ∧
    ((settle ⟨4, 100, 300000, true, 3, false, 60000⟩ 0 0 (.resolved failCycle)
        busyState).events.filter (fun e => e.type == "task-retry")) = [] ∧
    (settle ⟨4, 100, 300000, true, 3, false, 60000⟩ 0 0 (.resolved failCycle)
        busyState).taskQueue = [] := by
  decide

/-- Whether an attempt outcome lands in the catch handler: the promise
rejects or the timeout wins the race.  A resolved phase cycle — even one
whose Result reports failure — goes to the then handler instead. -/
def isFailureOut : AttemptOutcome → Bool
  | .resolved _ => false
  | .rejected _ => true
  | .timedOut => true

/-- The message the catch handler receives for a failing outcome. -/
def effMsg (cfg : OrchestratorConfig) : AttemptOutcome → String
  | .rejected msg => msg
  | _ => timeoutMessage cfg

/-- The command trace of the always-failing scenario: start, dispatch one
task, then let attempt `j` settle with outcome `outs j`. -/
def failTrace (m : Nat) (outs : Nat → AttemptOutcome) (t : Task) : List Cmd :=
  [.start 0, .dispatch 0 t] ++ (List.range m).map (fun j => .settle 0 j (outs j))

/-- The all-timeout scenario trace: start, dispatch one task, then let
every attempt settle by timeout. -/
def retryTrace (m : Nat) (t : Task) : List Cmd :=
  [.start 0, .dispatch 0 t] ++ (List.range m).map (fun j => .settle 0 j .timedOut)

theorem retryTrace_eq_failTrace (m : Nat) (t : Task) :
    retryTrace m t = failTrace m (fun _ => .timedOut) t := rfl

/-- The queue item of the scenario task after `k` failed attempts whose
last recorded error message is `err`. -/
def itemAtG (t : Task) (err : Option String) (k : Nat) : QueueItem where
  task := t
  priority := calculatePriority t
  addedAt := 0
  attempts := k
  lastAttemptAt := if k = 0 then none else some 0
  error := err

/-- The error message recorded after `k` failing outcomes of `outs`. -/
def lastErr (cfg : OrchestratorConfig) (outs : Nat → AttemptOutcome) : Nat → Option String
  | 0 => none
  | k + 1 => some (effMsg cfg (outs k))

/-- The events accumulated in the scenario after `k` failed attempts. -/
def eventsAt (t : Task) : Nat → List Ev
  | 0 => [⟨"orchestrator-started", "orchestrator", 0⟩, ⟨"task-queued", t.id, 0⟩,
          ⟨"agent-started", t.id, 0⟩]
  | k + 1 => eventsAt t k ++ [⟨"task-retry", t.id, k + 1⟩, ⟨"agent-started", t.id, 0⟩]

/-- The orchestrator state of the scenario while attempt `k` is in flight,
the last recorded error message being `err`. -/
def stErrAt (t : Task) (err : Option String) (k : Nat) : OState where
  taskQueue := []
  active := [mkSlot 0 k (itemAtG t err k)]
  completedTasks := []
  failedTasks := []
  isRunning := true
  isPaused := false
  startTime := 0
  totalCost := 0
  nextExecId := k + 1
  events := eventsAt t k

theorem itemAtG_bump (t : Task) (err : Option String) (msg : String) (k : Nat) :
    bumpItem 0 msg (itemAtG t err k) = itemAtG t (some msg) (k + 1) := by
  simp [bumpItem, itemAtG]

theorem sortQueue_singleton (x : QueueItem) : sortQueue [x] = [x] := rfl

/-- While running, unpaused and with age boost off, `processQueue` is the
bare admission loop. -/
theorem processQueue_run (cfg : OrchestratorConfig) (now : Nat) (s : OState)
    (hrun : s.isRunning = true) (hpause : s.isPaused = false)
    (hb : cfg.priorityBoostOnAge = false) :
    processQueue cfg now s = admitLoop cfg now s := by
  unfold processQueue
  rw [if_neg (by simp [hrun, hpause]), if_neg (by simp [hb])]

theorem eventsAt_retry_length (t : Task) :
    ∀ k, ((eventsAt t k).filter (fun e => e.type == "task-retry")).length = k := by
  intro k
  induction k with
  | zero => rfl
  | succ k ih => simp [eventsAt, List.filter_append, ih]

theorem failScenario_base (cfg : OrchestratorConfig) (t : Task)
    (hmc : 1 ≤ cfg.maxConcurrent) (hqs : 1 ≤ cfg.queueSize)
    (hb : cfg.priorityBoostOnAge = false) :
    (runG cfg [.start 0, .dispatch 0 t]).st = stErrAt t none 0 := by
  have hmin : cfg.maxConcurrent ⊓ 1 = 1 := by omega
  have hstart : gstep cfg initG (.start 0) =
      ⟨{ initState with
          isRunning := true,
          isPaused := false,
          startTime := 0,
          events := [⟨"orchestrator-started", "orchestrator", 0⟩] }, [], []⟩ := by
    simp only [gstep, initG]
    unfold start
    rw [if_neg (by simp [initState])]
    rw [processQueue_run cfg 0 _ rfl rfl hb, admitLoop_eq]
    simp [initState, admitCount, mkSlots, startedEvents]
  have hrun2 : runG cfg [.start 0, .dispatch 0 t] =
      gstep cfg (gstep cfg initG (.start 0)) (.dispatch 0 t) := rfl
  rw [hrun2, hstart]
  have hnotfull : ¬ ({ initState with
      isRunning := true, isPaused := false, startTime := 0,
      events := [(⟨"orchestrator-started", "orchestrator", 0⟩ : Ev)] } :
        OState).taskQueue.length ≥ cfg.queueSize := by
    simp [initState]
    omega
  simp only [gstep, dispatch, if_neg hnotfull]
  rw [if_pos (⟨trivial, trivial⟩ : True ∧ True)]
  rw [processQueue_run cfg 0 _ rfl rfl hb, admitLoop_eq]
  simp [initState, admitCount, sortQueue, stableSortD, insertD, mkSlots, startedEvents,
    stErrAt, itemAtG, eventsAt, mkSlot, hmin]

/-- One rejected in-flight attempt with retries remaining moves the
scenario from attempt `k` to attempt `k + 1`. -/
theorem failScenario_rejStep (cfg : OrchestratorConfig) (t : Task) (err : Option String)
    (msg : String)
    (hret : cfg.retryFailedTasks = true) (hmc : 1 ≤ cfg.maxConcurrent)
    (hb : cfg.priorityBoostOnAge = false) (k : Nat) (hk : k + 1 < cfg.maxRetries) :
    settle cfg 0 k (.rejected msg) (stErrAt t err k) = stErrAt t (some msg) (k + 1) := by
  have hfind : (stErrAt t err k).active.find? (fun i => i.executionId == k) =
      some (mkSlot 0 k (itemAtG t err k)) := by
    simp [stErrAt, mkSlot]
  rw [settle_eq_rejected cfg 0 k msg _ _ hfind]
  rw [show (mkSlot 0 k (itemAtG t err k)).item = itemAtG t err k from rfl]
  rw [handleTaskError_retry cfg 0 (itemAtG t err k) msg _ hret
    (by simpa [itemAtG] using hk)]
  rw [processQueue_run cfg 0 _ rfl rfl hb, admitLoop_eq]
  simp only [stErrAt, List.nil_append, sortQueue_singleton, itemAtG_bump]
  have herase : ([mkSlot 0 k (itemAtG t err k)].eraseP (fun i => i.executionId == k)) = [] := by
    simp [mkSlot]
  have hmin : cfg.maxConcurrent ⊓ 1 = 1 := by omega
  simp [herase, admitCount, mkSlots, startedEvents, eventsAt, mkSlot, itemAtG, hmin]

/-- The final rejected attempt (retries exhausted) yields the terminal
failure state. -/
theorem failScenario_rejFinal (cfg : OrchestratorConfig) (t : Task) (err : Option String)
    (msg : String)
    (hb : cfg.priorityBoostOnAge = false) (k : Nat)
    (hterm : ¬(cfg.retryFailedTasks = true ∧ k + 1 < cfg.maxRetries)) :
    settle cfg 0 k (.rejected msg) (stErrAt t err k) =
      { taskQueue := []
        active := []
        completedTasks := []
        failedTasks := [failureResult 0 (itemAtG t (some msg) (k + 1)) msg]
        isRunning := true
        isPaused := false
        startTime := 0
        totalCost := 0
        nextExecId := k + 1
        events := eventsAt t k ++ [⟨"task-failed", t.id, k + 1⟩] } := by
  have hfind : (stErrAt t err k).active.find? (fun i => i.executionId == k) =
      some (mkSlot 0 k (itemAtG t err k)) := by
    simp [stErrAt, mkSlot]
  rw [settle_eq_rejected cfg 0 k msg _ _ hfind]
  rw [show (mkSlot 0 k (itemAtG t err k)).item = itemAtG t err k from rfl]
  rw [handleTaskError_terminal cfg 0 (itemAtG t err k) msg _
    (by simpa [itemAtG] using hterm)]
  rw [processQueue_run cfg 0 _ rfl rfl hb, admitLoop_eq]
  have herase : ([mkSlot 0 k (itemAtG t err k)].eraseP (fun i => i.executionId == k)) = [] := by
    simp [mkSlot]
  simp [stErrAt, herase, admitCount, mkSlots, startedEvents, itemAtG_bump, itemAtG]
  refine ⟨rfl, ?_⟩
  simp [bumpItem]

/-- One failing in-flight attempt — rejection or timeout — with retries
remaining moves the scenario from attempt `k` to attempt `k + 1`. -/
theorem failScenario_step (cfg : OrchestratorConfig) (t : Task) (outs : Nat → AttemptOutcome)
    (hret : cfg.retryFailedTasks = true) (hmc : 1 ≤ cfg.maxConcurrent)
    (hb : cfg.priorityBoostOnAge = false) (k : Nat) (hk : k + 1 < cfg.maxRetries)
    (hout : isFailureOut (outs k) = true) :
    settle cfg 0 k (outs k) (stErrAt t (lastErr cfg outs k) k) =
      stErrAt t (lastErr cfg outs (k + 1)) (k + 1) := by
  rw [show lastErr cfg outs (k + 1) = some (effMsg cfg (outs k)) from rfl]
  cases houts : outs k with
  | resolved d =>
      rw [houts] at hout
      exact absurd hout (by simp [isFailureOut])
  | rejected msg =>
      exact failScenario_rejStep cfg t _ msg hret hmc hb k hk
  | timedOut =>
      rw [settle_timedOut_eq]
      exact failScenario_rejStep cfg t _ (timeoutMessage cfg) hret hmc hb k hk

theorem failScenario_at (cfg : OrchestratorConfig) (t : Task) (outs : Nat → AttemptOutcome)
    (hret : cfg.retryFailedTasks = true) (hmc : 1 ≤ cfg.maxConcurrent)
    (hqs : 1 ≤ cfg.queueSize) (hb : cfg.priorityBoostOnAge = false)
    (hfail : ∀ j, j < cfg.maxRetries → isFailureOut (outs j) = true) :
    ∀ k, k < cfg.maxRetries →
      (runG cfg (failTrace k outs t)).st = stErrAt t (lastErr cfg outs k) k := by
  intro k
  induction k with
  | zero =>
      intro _
      have h0 : failTrace 0 outs t = [.start 0, .dispatch 0 t] := by simp [failTrace]
      rw [h0]
      exact failScenario_base cfg t hmc hqs hb
  | succ k ih =>
      intro hk
      have hsplit : failTrace (k + 1) outs t = failTrace k outs t ++ [.settle 0 k (outs k)] := by
        simp [failTrace, List.range_succ]
      rw [hsplit]
      unfold runG
      rw [List.foldl_append]
      simp only [List.foldl_cons, List.foldl_nil, gstep]
      rw [show List.foldl (gstep cfg) initG (failTrace k outs t) =
        runG cfg (failTrace k outs t) from rfl]
      rw [ih (by omega)]
      exact failScenario_step cfg t outs hret hmc hb k hk (hfail k (by omega))

/-- The end state of the always-failing scenario: one terminal failure,
nothing completed, queued or in flight. -/
theorem failScenario_end (cfg : OrchestratorConfig) (t : Task) (outs : Nat → AttemptOutcome)
    (m : Nat)
    (hret : cfg.retryFailedTasks = true) (hm : cfg.maxRetries = m + 1)
    (hmc : 1 ≤ cfg.maxConcurrent) (hqs : 1 ≤ cfg.queueSize)
    (hb : cfg.priorityBoostOnAge = false)
    (hfail : ∀ j, j < cfg.maxRetries → isFailureOut (outs j) = true) :
    (runG cfg (failTrace (m + 1) outs t)).st =
      { taskQueue := []
        active := []
        completedTasks := []
        failedTasks := [failureResult 0 (itemAtG t (some (effMsg cfg (outs m))) (m + 1))
          (effMsg cfg (outs m))]
        isRunning := true
        isPaused := false
        startTime := 0
        totalCost := 0
        nextExecId := m + 1
        events := eventsAt t m ++ [⟨"task-failed", t.id, m + 1⟩] } := by
  have hsplit : failTrace (m + 1) outs t = failTrace m outs t ++ [.settle 0 m (outs m)] := by
    simp [failTrace, List.range_succ]
  have hprev : (runG cfg (failTrace m outs t)).st = stErrAt t (lastErr cfg outs m) m :=
    failScenario_at cfg t outs hret hmc hqs hb hfail m (by omega)
  have hterm : ¬(cfg.retryFailedTasks = true ∧ m + 1 < cfg.maxRetries) := by
    rw [hm]
    rintro ⟨-, hcon⟩
    omega
  rw [hsplit]
  unfold runG
  rw [List.foldl_append]
  simp only [List.foldl_cons, List.foldl_nil, gstep]
  rw [show List.foldl (gstep cfg) initG (failTrace m outs t) =
    runG cfg (failTrace m outs t) from rfl]
  rw [hprev]
  cases houts : outs m with
  | resolved d =>
      have hm' : isFailureOut (outs m) = true := hfail m (by omega)
      rw [houts] at hm'
      exact absurd hm' (by simp [isFailureOut])
  | rejected msg =>
      exact failScenario_rejFinal cfg t _ msg hb m hterm
  | timedOut =>
      rw [settle_timedOut_eq]
      exact failScenario_rejFinal cfg t _ (timeoutMessage cfg) hb m hterm

/-- C7 (amended): with retrying enabled, a task whose every attempt fails
by rejection or by timeout is retried exactly `maxRetries - 1` additional
times and then yields exactly one terminal failure Result in the failed
set, whose `retryCount` equals `maxRetries`, with `success = false` and a
non-empty error list; nothing ends up completed, queued or in flight.  An
attempt whose phase cycle resolves with an unsuccessful Result is
excluded: it is never retried and its Result is appended to the failed
set at once, carrying the cycle's own retry count. -/
theorem retry_bound (cfg : OrchestratorConfig) (t : Task) (outs : Nat → AttemptOutcome)
    (hret : cfg.retryFailedTasks = true) (hm1 : 1 ≤ cfg.maxRetries)
    (hmc : 1 ≤ cfg.maxConcurrent) (hqs : 1 ≤ cfg.queueSize)
    (hb : cfg.priorityBoostOnAge = false)
    (hfail : ∀ j, j < cfg.maxRetries → isFailureOut (outs j) = true) :
    (runG cfg (failTrace cfg.maxRetries outs t)).st.failedTasks =
      [failureResult 0 (itemAtG t (some (effMsg cfg (outs (cfg.maxRetries - 1)))) cfg.maxRetries)
        (effMsg cfg (outs (cfg.maxRetries - 1)))] ∧
    (runG cfg (failTrace cfg.maxRetries outs t)).st.completedTasks = [] ∧
    (runG cfg (failTrace cfg.maxRetries outs t)).st.taskQueue = [] ∧
    (runG cfg (failTrace cfg.maxRetries outs t)).st.active = [] ∧
    ((runG cfg (failTrace cfg.maxRetries outs t)).st.events.filter
        (fun e => e.type == "task-retry")).length = cfg.maxRetries - 1 ∧
    (failureResult 0 (itemAtG t (some (effMsg cfg (outs (cfg.maxRetries - 1)))) cfg.maxRetries)
        (effMsg cfg (outs (cfg.maxRetries - 1)))).retryCount = cfg.maxRetries ∧
    (failureResult 0 (itemAtG t (some (effMsg cfg (outs (cfg.maxRetries - 1)))) cfg.maxRetries)
        (effMsg cfg (outs (cfg.maxRetries - 1)))).success = false ∧
    (failureResult 0 (itemAtG t (some (effMsg cfg (outs (cfg.maxRetries - 1)))) cfg.maxRetries)
        (effMsg cfg (outs (cfg.maxRetries - 1)))).errors ≠ [] := by
  obtain ⟨m, hm⟩ : ∃ m, cfg.maxRetries = m + 1 := ⟨cfg.maxRetries - 1, by omega⟩
  rw [hm]
  simp only [Nat.add_sub_cancel]
  rw [failScenario_end cfg t outs m hret hm hmc hqs hb hfail]
  refine ⟨rfl, rfl, rfl, rfl, ?_, ?_, rfl, by simp [failureResult]⟩
  · simp [List.filter_append, eventsAt_retry_length]
  · simp [failureResult, itemAtG]

/-- Witness for C7: three attempts under the default three retries — two
timeouts around one rejected attempt — run concretely. -/
theorem retry_bound_witness :
    (runG ⟨4, 100, 300000, true, 3, false, 60000⟩
        (failTrace 3 (fun j => if j = 1 then .rejected "boom" else .timedOut)
          sampleTask)).st.failedTasks =
      [failureResult 0
        (itemAtG sampleTask
          (some (effMsg ⟨4, 100, 300000, true, 3, false, 60000⟩
            ((fun j => if j = 1 then .rejected "boom" else .timedOut) (3 - 1)))) 3)
        (effMsg ⟨4, 100, 300000, true, 3, false, 60000⟩
          ((fun j => if j = 1 then .rejected "boom" else .timedOut) (3 - 1)))] ∧
    (runG ⟨4, 100, 300000, true, 3, false, 60000⟩
        (failTrace 3 (fun j => if j = 1 then .rejected "boom" else .timedOut)
          sampleTask)).st.completedTasks = [] ∧
    (runG ⟨4, 100, 300000, true, 3, false, 60000⟩
        (failTrace 3 (fun j => if j = 1 then .rejected "boom" else .timedOut)
          sampleTask)).st.taskQueue = [] ∧
    (runG ⟨4, 100, 300000, true, 3, false, 60000⟩
        (failTrace 3 (fun j => if j = 1 then .rejected "boom" else .timedOut)
          sampleTask)).st.active = [] ∧
    ((runG ⟨4, 100, 300000, true, 3, false, 60000⟩
        (failTrace 3 (fun j => if j = 1 then .rejected "boom" else .timedOut)
          sampleTask)).st.events.filter
        (fun e => e.type == "task-retry")).length = 3 - 1 ∧
    (failureResult 0
        (itemAtG sampleTask
          (some (effMsg ⟨4, 100, 300000, true, 3, false, 60000⟩
            ((fun j => if j = 1 then .rejected "boom" else .timedOut) (3 - 1)))) 3)
        (effMsg ⟨4, 100, 300000, true, 3, false, 60000⟩
          ((fun j => if j = 1 then .rejected "boom" else .timedOut) (3 - 1)))).retryCount = 3 ∧
    (failureResult 0
        (itemAtG sampleTask
          (some (effMsg ⟨4, 100, 300000, true, 3, false, 60000⟩
            ((fun j => if j = 1 then .rejected "boom" else .timedOut) (3 - 1)))) 3)
        (effMsg ⟨4, 100, 300000, true, 3, false, 60000⟩
          ((fun j => if j = 1 then .rejected "boom" else .timedOut) (3 - 1)))).success = false ∧
    (failureResult 0
        (itemAtG sampleTask
          (some (effMsg ⟨4, 100, 300000, true, 3, false, 60000⟩
            ((fun j => if j = 1 then .rejected "boom" else .timedOut) (3 - 1)))) 3)
        (effMsg ⟨4, 100, 300000, true, 3, false, 60000⟩
          ((fun j => if j = 1 then .rejected "boom" else .timedOut) (3 - 1)))).errors ≠ [] :=
  retry_bound ⟨4, 100, 300000, true, 3, false, 60000⟩ sampleTask
    (fun j => if j = 1 then .rejected "boom" else .timedOut) rfl (by decide) (by decide)
    (by decide) rfl (by decide)

/-- Counterexample to C7 as stated: with `maxRetries = 3` and retrying
enabled, a task whose every attempt fails — here the single attempt,
whose phase cycle resolves with `success = false` — is retried zero
times, not `maxRetries - 1 = 2`, and the one terminal Result appended to
the failed set carries `retryCount = 0`, not `maxRetries = 3`. -/
theorem retry_bound_counterexample :
    (runG ⟨4, 100, 300000, true, 3, false, 60000⟩
        [.start 0, .dispatch 0 sampleTask,
          .settle 0 0 (.resolved failCycle)]).st.failedTasks =
      [mkCycleResult sampleTask failCycle] ∧
    (runG ⟨4, 100, 300000, true, 3, false, 60000⟩
        [.start 0, .dispatch 0 sampleTask,
          .settle 0 0 (.resolved failCycle)]).st.completedTasks = [] ∧
    (runG ⟨4, 100, 300000, true, 3, false, 60000⟩
        [.start 0, .dispatch 0 sampleTask,
          .settle 0 0 (.resolved failCycle)]).st.taskQueue = [] ∧
    (runG ⟨4, 100, 300000, true, 3, false, 60000⟩
        [.start 0, .dispatch 0 sampleTask,
          .settle 0 0 (.resolved failCycle)]).st.active = [] ∧
    ((runG ⟨4, 100, 300000, true, 3, false, 60000⟩
        [.start 0, .dispatch 0 sampleTask,
          .settle 0 0 (.resolved failCycle)]).st.events.filter
        (fun e => e.type == "task-retry")).length = 0 ∧
    (mkCycleResult sampleTask failCycle).success = false ∧
    (mkCycleResult sampleTask failCycle).retryCount = 0 ∧
    (mkCycleResult sampleTask failCycle).retryCount ≠
      (⟨4, 100, 300000, true, 3, false, 60000⟩ : OrchestratorConfig).maxRetries ∧
    0 ≠ (⟨4, 100, 300000, true, 3, false, 60000⟩ : OrchestratorConfig).maxRetries - 1 := by
  decide

/-- C4: a timeout that settles before the phase-cycle result is treated as
a failure exactly like an execution error (the same catch handler, with
the timeout message), hence retryable under the same policy; a task whose
every attempt times out ends in the failed set with `retryCount` equal to
`maxRetries` and an error whose code is TIMEOUT or EXECUTION_ERROR. -/
theorem timeout_failure (cfg : OrchestratorConfig) (t : Task) (now execId : Nat) (s : OState)
    (hret : cfg.retryFailedTasks = true) (hm1 : 1 ≤ cfg.maxRetries)
    (hmc : 1 ≤ cfg.maxConcurrent) (hqs : 1 ≤ cfg.queueSize)
    (hb : cfg.priorityBoostOnAge = false) :
    (settle cfg now execId .timedOut s =
      settle cfg now execId (.rejected (timeoutMessage cfg)) s) ∧
    ((runG cfg (retryTrace cfg.maxRetries t)).st.failedTasks ≠ [] ∧
      ∀ r ∈ (runG cfg (retryTrace cfg.maxRetries t)).st.failedTasks,
        r.retryCount = cfg.maxRetries ∧ r.success = false ∧
          ∃ e ∈ r.errors, e.code = "TIMEOUT" ∨ e.code = "EXECUTION_ERROR") := by
  refine ⟨settle_timedOut_eq cfg now execId s, ?_⟩
  obtain ⟨m, hm⟩ : ∃ m, cfg.maxRetries = m + 1 := ⟨cfg.maxRetries - 1, by omega⟩
  rw [hm, retryTrace_eq_failTrace,
    failScenario_end cfg t (fun _ => .timedOut) m hret hm hmc hqs hb (fun j _ => rfl)]
  refine ⟨by simp, ?_⟩
  intro r hr
  rw [List.mem_singleton] at hr
  subst hr
  refine ⟨?_, rfl, ⟨"EXECUTION_ERROR", timeoutMessage cfg, .act, false⟩,
    by simp [failureResult, effMsg], Or.inr rfl⟩
  simp [failureResult, itemAtG, hm]

/-- Witness for C4 at the default configuration values. -/
theorem timeout_failure_witness :
    (settle ⟨4, 100, 300000, true, 3, false, 60000⟩ 0 0 .timedOut busyState =
      settle ⟨4, 100, 300000, true, 3, false, 60000⟩ 0 0
        (.rejected (timeoutMessage ⟨4, 100, 300000, true, 3, false, 60000⟩)) busyState) ∧
    ((runG ⟨4, 100, 300000, true, 3, false, 60000⟩
        (retryTrace 3 sampleTask2)).st.failedTasks ≠ [] ∧
      ∀ r ∈ (runG ⟨4, 100, 300000, true, 3, false, 60000⟩
          (retryTrace 3 sampleTask2)).st.failedTasks,
        r.retryCount = 3 ∧ r.success = false ∧
          ∃ e ∈ r.errors, e.code = "TIMEOUT" ∨ e.code = "EXECUTION_ERROR") :=
  timeout_failure ⟨4, 100, 300000, true, 3, false, 60000⟩ sampleTask2 0 0 busyState rfl
    (by decide) (by decide) (by decide) rfl

/-- Witness for C2 on a concrete run to quiescence. -/
theorem quiescent_conservation_witness :
    (runG cfgW2 traceW2).st.completedTasks.length + (runG cfgW2 traceW2).st.failedTasks.length +
        (runG cfgW2 traceW2).cancelled.length = (runG cfgW2 traceW2).dispatched.length ∧
      (((runG cfgW2 traceW2).st.completedTasks ++ (runG cfgW2 traceW2).st.failedTasks).map
        TaskResult.taskId).Nodup :=
  quiescent_conservation cfgW2 traceW2 (by decide) (by decide) (by decide)

/-- C6: admission order is priority-descending with a stable tie-break —
the re-sorted queue is pairwise descending by score, re-sorting never
reorders a pair whose leading item has at least the score of the trailing
one (so equal-score items keep insertion order), and the admission loop
admits exactly the leading prefix of the queue, in queue order. -/
theorem priority_admission_order (cfg : OrchestratorConfig) (now : Nat) (s : OState)
    (hrun : s.isRunning = true) (hpause : s.isPaused = false)
    (hb : cfg.priorityBoostOnAge = false) :
    (∀ q : List QueueItem, (sortQueue q).Pairwise (fun a b => b.priority ≤ a.priority)) ∧
    (∀ (q : List QueueItem) (a b : QueueItem), [a, b].Sublist q → b.priority ≤ a.priority →
      [a, b].Sublist (sortQueue q)) ∧
    (processQueue cfg now s).active =
      s.active ++ mkSlots now s.nextExecId (s.taskQueue.take (admitCount cfg s)) ∧
    (processQueue cfg now s).taskQueue = s.taskQueue.drop (admitCount cfg s) := by
  refine ⟨fun q => stableSortD_sorted _ q,
    fun q a b h hle => pair_sublist_stableSortD _ a b q h hle, ?_, ?_⟩
  · rw [processQueue_run cfg now s hrun hpause hb, admitLoop_eq]
  · rw [processQueue_run cfg now s hrun hpause hb, admitLoop_eq]

/-- Witness for C6: a two-item queue sorted concretely and a concrete
admission step. -/
theorem priority_admission_order_witness :
    (sortQueue [⟨sampleTask, 25, 0, 0, none, none⟩, ⟨sampleTask2, 75, 0, 0, none, none⟩]).Pairwise
      (fun a b => b.priority ≤ a.priority) ∧
    (processQueue ⟨4, 10, 1000, true, 3, false, 60000⟩ 0 busyState).active =
      busyState.active ++ mkSlots 0 busyState.nextExecId
        (busyState.taskQueue.take (admitCount ⟨4, 10, 1000, true, 3, false, 60000⟩ busyState)) :=
  ⟨(priority_admission_order ⟨4, 10, 1000, true, 3, false, 60000⟩ 0 busyState rfl rfl rfl).1
      [⟨sampleTask, 25, 0, 0, none, none⟩, ⟨sampleTask2, 75, 0, 0, none, none⟩],
   (priority_admission_order ⟨4, 10, 1000, true, 3, false, 60000⟩ 0 busyState rfl rfl rfl).2.2.1⟩

/-- The largest occurrence count among the in-flight phases. -/
def maxCount (phs : List RARVPhase) : Nat :=
  (phs.map (fun p => phs.count p)).foldr max 0

/-- The fixed enumeration order of the phases. -/
def phaseEnum : List RARVPhase := [.idle, .reason, .act, .reflect, .verify]

/-- The claim as stated: the plurality phase among in-flight slots with
ties broken by enumeration order over the fixed phase ordering, idle when
nothing is in flight. -/
def claimCurrentPhase (active : List ActiveAgentInfo) : RARVPhase :=
  if active.length = 0 then .idle
  else
    let phs := active.map (fun i => i.phase)
    (phaseEnum.find? (fun p => phs.count p == maxCount phs)).getD .idle

/-- Configuration and trace reaching a two-slot state whose first-started
slot is in the verify phase while the second is still in reason. -/
def traceC9 : List Cmd :=
  [.start 0, .dispatch 0 sampleTask, .dispatch 0 sampleTask2, .rarvPhase 0 .verify]

/-- Counterexample to C9 as stated: with slots in phases verify and reason
(a tie), the code reports verify — the phase of the earlier-started slot
— while a tie-break by the fixed phase ordering would report reason. -/
theorem plurality_phase_counterexample :
    getCurrentPhase ((runG ⟨4, 10, 1000, true, 3, false, 60000⟩ traceC9).st.active) =
        RARVPhase.verify ∧
      claimCurrentPhase ((runG ⟨4, 10, 1000, true, 3, false, 60000⟩ traceC9).st.active) =
        RARVPhase.reason ∧
      getCurrentPhase ((runG ⟨4, 10, 1000, true, 3, false, 60000⟩ traceC9).st.active) ≠
        claimCurrentPhase ((runG ⟨4, 10, 1000, true, 3, false, 60000⟩ traceC9).st.active) := by
  decide

theorem bump_keys (acc : List (RARVPhase × Nat)) (p : RARVPhase) :
    (bumpCount acc p).map Prod.fst =
      if p ∈ acc.map Prod.fst then acc.map Prod.fst else acc.map Prod.fst ++ [p] := by
  induction acc with
  | nil => simp [bumpCount]
  | cons a rest ih =>
      obtain ⟨q, n⟩ := a
      by_cases hqp : q = p
      · subst hqp
        simp [bumpCount]
      · simp only [bumpCount, if_neg hqp, List.map_cons]
        rw [ih]
        by_cases hp : p ∈ rest.map Prod.fst
        · simp [hp, Ne.symm hqp]
        · simp [hp, Ne.symm hqp]

theorem bump_values (acc : List (RARVPhase × Nat)) (p : RARVPhase) (f : RARVPhase → Nat)
    (hnd : (acc.map Prod.fst).Nodup)
    (hvals : ∀ e ∈ acc, e.2 = f e.1)
    (hfresh : p ∉ acc.map Prod.fst → f p = 0) :
    ∀ e ∈ bumpCount acc p, e.2 = if e.1 = p then f e.1 + 1 else f e.1 := by
  induction acc with
  | nil =>
      intro e he
      simp [bumpCount] at he
      subst he
      simp [hfresh (by simp)]
  | cons a rest ih =>
      obtain ⟨q, n⟩ := a
      rw [List.map_cons, List.nodup_cons] at hnd
      intro e he
      by_cases hqp : q = p
      · subst hqp
        rw [show bumpCount ((q, n) :: rest) q = (q, n + 1) :: rest from by simp [bumpCount]] at he
        rcases List.mem_cons.1 he with rfl | he
        · have hn : n = f q := hvals (q, n) (List.mem_cons_self _ _)
          simp [hn]
        · have hval : e.2 = f e.1 := hvals e (List.mem_cons_of_mem _ he)
          have hne : e.1 ≠ q := by
            intro hc
            have hin : e.1 ∈ rest.map Prod.fst := List.mem_map_of_mem Prod.fst he
            rw [hc] at hin
            exact hnd.1 hin
          simp [hval, hne]
      · rw [show bumpCount ((q, n) :: rest) p = (q, n) :: bumpCount rest p from by
          simp [bumpCount, hqp]] at he
        rcases List.mem_cons.1 he with rfl | he
        · have hn : n = f q := hvals (q, n) (List.mem_cons_self _ _)
          simp [hn, hqp]
        · exact ih hnd.2 (fun x hx => hvals x (List.mem_cons_of_mem _ hx))
            (fun hfr => hfresh (by simp [hfr, Ne.symm hqp])) e he

theorem bump_find (acc : List (RARVPhase × Nat)) (p : RARVPhase) (P : RARVPhase → Bool) :
    ((bumpCount acc p).find? (fun e => P e.1)).map Prod.fst =
      match acc.find? (fun e => P e.1) with
      | some e => some e.1
      | none => if P p then some p else none := by
  induction acc with
  | nil => by_cases hP : P p <;> simp [bumpCount, List.find?, hP]
  | cons a rest ih =>
      obtain ⟨q, n⟩ := a
      by_cases hqp : q = p
      · subst hqp
        by_cases hP : P q
        · rw [show bumpCount ((q, n) :: rest) q = (q, n + 1) :: rest from by simp [bumpCount]]
          rw [List.find?_cons_of_pos _ (by simpa using hP),
            List.find?_cons_of_pos _ (by simpa using hP)]
          rfl
        · rw [show bumpCount ((q, n) :: rest) q = (q, n + 1) :: rest from by simp [bumpCount]]
          rw [List.find?_cons_of_neg _ (by simpa using hP),
            List.find?_cons_of_neg _ (by simpa using hP)]
          cases hr : rest.find? (fun e => P e.1) <;> simp [hr, hP]
      · rw [show bumpCount ((q, n) :: rest) p = (q, n) :: bumpCount rest p from by
          simp [bumpCount, hqp]]
        by_cases hP : P q
        · rw [List.find?_cons_of_pos _ (by simpa using hP),
            List.find?_cons_of_pos _ (by simpa using hP)]
          rfl
        · rw [List.find?_cons_of_neg _ (by simpa using hP),
            List.find?_cons_of_neg _ (by simpa using hP)]
          exact ih

theorem phaseCounts_append_one (phs : List RARVPhase) (p : RARVPhase) :
    phaseCounts (phs ++ [p]) = bumpCount (phaseCounts phs) p := by
  unfold phaseCounts
  rw [List.foldl_append]
  rfl

theorem phaseCounts_spec (phs : List RARVPhase) :
    ((phaseCounts phs).map Prod.fst).Nodup ∧
    (∀ p, p ∈ (phaseCounts phs).map Prod.fst ↔ p ∈ phs) ∧
    (∀ e ∈ phaseCounts phs, e.2 = phs.count e.1) := by
  induction phs using List.reverseRecOn with
  | nil => simp [phaseCounts]
  | append_singleton phs p ih =>
      obtain ⟨hnd, hmem, hvals⟩ := ih
      rw [phaseCounts_append_one]
      refine ⟨?_, ?_, ?_⟩
      · rw [bump_keys]
        split
        · exact hnd
        · next hnp =>
            rw [List.nodup_append]
            refine ⟨hnd, by simp, ?_⟩
            intro a ha hap
            rw [List.mem_singleton] at hap
            subst hap
            exact hnp ha
      · intro q
        rw [bump_keys]
        split
        · next hp =>
            rw [hmem q]
            constructor
            · intro hq
              exact List.mem_append_left _ hq
            · intro hq
              rcases List.mem_append.1 hq with hq | hq
              · exact hq
              · rw [List.mem_singleton] at hq
                subst hq
                exact (hmem q).1 hp
        · next hp =>
            simp [List.mem_append, hmem q]
      · intro e he
        have hfresh : p ∉ (phaseCounts phs).map Prod.fst → phs.count p = 0 := by
          intro hnp
          rw [List.count_eq_zero]
          intro hc
          exact hnp ((hmem p).2 hc)
        have := bump_values (phaseCounts phs) p (fun q => phs.count q) hnd hvals hfresh e he
        rw [this]
        by_cases h : e.1 = p
        · simp [h, List.count_append]
        · simp [h, List.count_append]

theorem fold_max_mem : ∀ l : List Nat, l ≠ [] → l.foldr max 0 ∈ l := by
  intro l
  induction l with
  | nil => intro h; exact absurd rfl h
  | cons x xs ih =>
      intro _
      cases hxs : xs with
      | nil => simp
      | cons y ys =>
          subst hxs
          have hmem : (y :: ys).foldr max 0 ∈ y :: ys := ih (by simp)
          rcases Nat.le_total x ((y :: ys).foldr max 0) with h | h
          · rw [List.foldr_cons, max_eq_right h]
            exact List.mem_cons_of_mem _ hmem
          · rw [List.foldr_cons, max_eq_left h]
            exact List.mem_cons_self _ _

theorem le_fold_max : ∀ (l : List Nat) (x : Nat), x ∈ l → x ≤ l.foldr max 0 := by
  intro l
  induction l with
  | nil => intro x hx; cases hx
  | cons a as ih =>
      intro x hx
      rcases List.mem_cons.1 hx with rfl | hx
      · exact le_max_left _ _
      · exact le_trans (ih x hx) (le_max_right _ _)

theorem find?_congr (p q : α → Bool) :
    ∀ l : List α, (∀ x ∈ l, p x = q x) → l.find? p = l.find? q := by
  intro l
  induction l with
  | nil => intro _; rfl
  | cons a as ih =>
      intro h
      rw [List.find?_cons, List.find?_cons, h a (List.mem_cons_self _ _),
        ih (fun x hx => h x (List.mem_cons_of_mem _ hx))]

theorem find?_split (p : α → Bool) :
    ∀ (l : List α) (a : α), l.find? p = some a →
      ∃ l1 l2, l = l1 ++ a :: l2 ∧ ∀ x ∈ l1, p x = false := by
  intro l
  induction l with
  | nil => intro a h; cases h
  | cons b bs ih =>
      intro a h
      by_cases hb : p b
      · rw [List.find?_cons_of_pos _ hb] at h
        injection h with h
        subst h
        exact ⟨[], bs, rfl, by simp⟩
      · rw [List.find?_cons_of_neg _ hb] at h
        obtain ⟨l1, l2, hsplit, hl1⟩ := ih a h
        refine ⟨b :: l1, l2, by rw [hsplit, List.cons_append], ?_⟩
        intro x hx
        rcases List.mem_cons.1 hx with rfl | hx
        · simpa using hb
        · exact hl1 x hx

/-- The first counts-object key satisfying a per-phase test is the first
phase in slot order satisfying it: keys are ordered by first occurrence. -/
theorem phaseCounts_find (phs : List RARVPhase) (P : RARVPhase → Bool) :
    ((phaseCounts phs).find? (fun e => P e.1)).map Prod.fst = phs.find? P := by
  induction phs using List.reverseRecOn with
  | nil => rfl
  | append_singleton phs p ih =>
      rw [phaseCounts_append_one, bump_find, List.find?_append]
      cases hr : phs.find? P with
      | some x =>
          cases hc : (phaseCounts phs).find? (fun e => P e.1) with
          | none => rw [hr, hc] at ih; cases ih
          | some e =>
              rw [hr, hc] at ih
              simp at ih
              simp [Option.or, ih]
      | none =>
          have hc : (phaseCounts phs).find? (fun e => P e.1) = none := by
            rw [hr] at ih
            exact Option.map_eq_none.1 ih
          rw [hc]
          by_cases hP : P p <;> simp [List.find?, hP, Option.or]

/-- C9 (amended): status introspection reports idle when nothing is in
flight, and otherwise the plurality phase among the in-flight slots with
ties broken by first appearance in slot order — formally, the first phase
in slot order whose occurrence count is maximal. -/
theorem currentPhase_plurality (active : List ActiveAgentInfo) :
    getCurrentPhase active =
      if active.isEmpty then RARVPhase.idle
      else
        ((active.map (fun i => i.phase)).find?
            (fun p => (active.map (fun i => i.phase)).count p ==
              maxCount (active.map (fun i => i.phase)))).getD RARVPhase.idle := by
  cases active with
  | nil => rfl
  | cons a rest =>
      rw [if_neg (by simp)]
      have hL : getCurrentPhase (a :: rest) =
          match stableSortD (fun e => (e.2 : Int))
              (phaseCounts ((a :: rest).map (fun i => i.phase))) with
          | [] => RARVPhase.idle
          | e :: _ => e.1 := by
        unfold getCurrentPhase
        rw [if_neg (by simp)]
      rw [hL]
      set phs := (a :: rest).map (fun i => i.phase) with hphs
      have hne : phs ≠ [] := by rw [hphs]; simp
      obtain ⟨hnd, hmem, hvals⟩ := phaseCounts_spec phs
      have hcne : phaseCounts phs ≠ [] := by
        have hp0 : a.phase ∈ phs := by rw [hphs]; simp
        have hk : a.phase ∈ (phaseCounts phs).map Prod.fst := (hmem _).2 hp0
        intro hc
        rw [hc] at hk
        simp at hk
      have hperm := stableSortD_perm (fun e => ((e.2 : Nat) : Int)) (phaseCounts phs)
      have hsorted := stableSortD_sorted (fun e => ((e.2 : Nat) : Int)) (phaseCounts phs)
      cases hsr : stableSortD (fun e => ((e.2 : Nat) : Int)) (phaseCounts phs) with
      | nil =>
          exfalso
          rw [hsr] at hperm
          exact hcne (List.Perm.eq_nil hperm.symm)
      | cons e srest =>
          rw [hsr] at hperm hsorted
          show e.1 = (phs.find? (fun p => phs.count p == maxCount phs)).getD RARVPhase.idle
          set M := maxCount phs with hM
          obtain ⟨pm, hpm_mem, hpm⟩ : ∃ p ∈ phs, phs.count p = M := by
            have hmm := fold_max_mem (phs.map (fun p => phs.count p)) (by simpa using hne)
            rw [List.mem_map] at hmm
            obtain ⟨p, hp, hpc⟩ := hmm
            refine ⟨p, hp, ?_⟩
            rw [hM]
            unfold maxCount
            exact hpc
          obtain ⟨nm, hnm⟩ : ∃ n, (pm, n) ∈ phaseCounts phs := by
            have hk : pm ∈ (phaseCounts phs).map Prod.fst := (hmem pm).2 hpm_mem
            rw [List.mem_map] at hk
            obtain ⟨⟨p1, n1⟩, h1, h2⟩ := hk
            refine ⟨n1, ?_⟩
            rwa [show p1 = pm from h2] at h1
          have hnmM : nm = M := by
            have hv := hvals (pm, nm) hnm
            simp only at hv
            rw [hv, hpm]
          have hemem : e ∈ phaseCounts phs := hperm.mem_iff.1 (List.mem_cons_self _ _)
          have heM : e.2 = M := by
            have hle1 : e.2 ≤ M := by
              have hv := hvals e hemem
              rw [hv, hM]
              unfold maxCount
              exact le_fold_max _ _
                (List.mem_map_of_mem _ ((hmem e.1).1 (List.mem_map_of_mem Prod.fst hemem)))
            have hge : M ≤ e.2 := by
              have hin : (pm, nm) ∈ e :: srest := hperm.mem_iff.2 hnm
              rcases List.mem_cons.1 hin with heq | hin
              · rw [show e = (pm, nm) from heq.symm]
                exact le_of_eq hnmM.symm
              · have hp := (List.pairwise_cons.1 hsorted).1 (pm, nm) hin
                have hple : ((nm : Nat) : Int) ≤ ((e.2 : Nat) : Int) := hp
                rw [hnmM] at hple
                exact_mod_cast hple
            omega
          have hfind_some : ((phaseCounts phs).find? (fun en => en.2 == M)).isSome := by
            rw [List.find?_isSome]
            exact ⟨(pm, nm), hnm, by simp [hnmM]⟩
          obtain ⟨x0, hx0⟩ := Option.isSome_iff_exists.1 hfind_some
          have hx0p : x0.2 = M := by
            have := List.find?_some hx0
            simpa using this
          have hndc : (phaseCounts phs).Nodup := List.Nodup.of_map Prod.fst hnd
          have hnds : (e :: srest).Nodup := (hperm.nodup_iff).2 hndc
          have hex0 : e = x0 := by
            by_contra hne2
            obtain ⟨l1, l2, hsplit, hl1⟩ := find?_split _ _ _ hx0
            have hel2 : e ∈ l2 := by
              have he2 : e ∈ phaseCounts phs := hemem
              rw [hsplit] at he2
              rcases List.mem_append.1 he2 with h1 | h2
              · have hfalse : (e.2 == M) = false := hl1 e h1
                rw [heM] at hfalse
                exact absurd hfalse (by simp)
              · rcases List.mem_cons.1 h2 with heq | h3
                · exact absurd heq hne2
                · exact h3
            have hpair : [x0, e].Sublist (phaseCounts phs) := by
              rw [hsplit]
              exact ((List.singleton_sublist.2 hel2).cons₂ x0).trans
                (List.sublist_append_right l1 _)
            have hkey : ((e.2 : Nat) : Int) ≤ ((x0.2 : Nat) : Int) := by
              rw [heM, hx0p]
            have hstab := pair_sublist_stableSortD (fun en => ((en.2 : Nat) : Int))
              x0 e _ hpair hkey
            rw [hsr] at hstab
            rcases List.sublist_cons_iff.1 hstab with hsub | ⟨r, hr2, hrsub⟩
            · have hesr : e ∈ srest :=
                List.singleton_sublist.1 ((List.sublist_cons_self x0 [e]).trans hsub)
              exact (List.nodup_cons.1 hnds).1 hesr
            · injection hr2 with h1 h2
              exact hne2 h1.symm
          have hcongr : (phaseCounts phs).find? (fun en => en.2 == M) =
              (phaseCounts phs).find? (fun en => phs.count en.1 == M) := by
            apply find?_congr
            intro x hx
            rw [hvals x hx]
          have hbridge := phaseCounts_find phs (fun p => phs.count p == M)
          rw [← hcongr, hx0] at hbridge
          rw [show Option.map Prod.fst (some x0) = some x0.1 from rfl] at hbridge
          rw [hM] at hbridge
          rw [← hbridge]
          rw [hex0]
          rfl

end Orch
